import Mathlib

/-!
Verification of the `generate-front-end` scaffolding CLI (`src/index.js`).

The program is sequential orchestration: parameter resolution, a `git clone`
of a template, regex-based text substitution on a handful of files, a
license lookup against the SPDX registry, and repository finalization.

We embed the text-rewriting core shallowly: each JavaScript
`String.prototype.replace` call site is modelled by an executable Lean
function over `List Char` that mirrors the exact regex (leftmost match,
greedy quantifiers with the backtracking the concrete pattern allows) or
string pattern (first occurrence).  JavaScript replacement strings are
processed for dollar escapes, which `expandRepl` models.  The `run`
pipeline is modelled as a function from an environment (file system,
registry responses, subprocess exit codes) to a final file system plus an
event trace.
-/

/-- JavaScript `\s` character class (whitespace, as used by the regexes in
`index.js`). -/
def isJsWs (c : Char) : Bool :=
  c.toNat = 9 ∨ c.toNat = 10 ∨ c.toNat = 11 ∨ c.toNat = 12 ∨ c.toNat = 13 ∨
  c.toNat = 32 ∨ c.toNat = 160 ∨ c.toNat = 5760 ∨
  (8192 ≤ c.toNat ∧ c.toNat ≤ 8202) ∨ c.toNat = 8232 ∨ c.toNat = 8233 ∨
  c.toNat = 8239 ∨ c.toNat = 8287 ∨ c.toNat = 12288 ∨ c.toNat = 65279

/-- JavaScript line terminators: the characters that `.` does not match. -/
def isLineTerm (c : Char) : Bool :=
  c.toNat = 10 ∨ c.toNat = 13 ∨ c.toNat = 8232 ∨ c.toNat = 8233

/-- `containsSub pat cs`: `pat` occurs as a contiguous substring of `cs`. -/
def containsSub (pat : List Char) : List Char → Bool
  | [] => pat.isPrefixOf []
  | c :: cs => pat.isPrefixOf (c :: cs) || containsSub pat cs

/-- Split at the first occurrence of `pat`: returns the part before and the
part after the occurrence.  Mirrors the search that the non-global
JavaScript `replace` performs. -/
def findFirstSplit (pat : List Char) : List Char → Option (List Char × List Char)
  | [] => if pat.isPrefixOf ([] : List Char) then some ([], []) else none
  | c :: cs =>
    if pat.isPrefixOf (c :: cs) then some ([], (c :: cs).drop pat.length)
    else (findFirstSplit pat cs).map (fun q => (c :: q.1, q.2))

/-- Split at the last occurrence of `pat` (used for greedy `[\s\S]+` before
a literal: backtracking from the right finds the last occurrence). -/
def findLastSplit (pat : List Char) : List Char → Option (List Char × List Char)
  | [] => if pat.isPrefixOf ([] : List Char) then some ([], []) else none
  | c :: cs =>
    let r := findLastSplit pat cs
    if r.isSome then r.map (fun q => (c :: q.1, q.2))
    else if pat.isPrefixOf (c :: cs) then some ([], (c :: cs).drop pat.length)
    else none

/-- Look up capture group `n` (1-based), as JavaScript replacement
processing does: a reference beyond the group count stays literal. -/
def groupRef (groups : List (List Char)) (n : Nat) : Option (List Char) :=
  if 1 ≤ n ∧ n ≤ groups.length then some (groups.getD (n - 1) []) else none

/-- JavaScript replacement-string processing: expands `$$`, `$&`,
`$` + backtick, `$'` and `$n` / `$nn` group references; everything else is
literal.  `matched` is the matched text, `pre` and `post` the surrounding
text, `groups` the capture groups of the pattern. -/
def expandRepl (matched pre post : List Char) (groups : List (List Char)) :
    List Char → List Char
  | [] => []
  | c :: rest =>
    if c = '$' then
      match rest with
      | [] => ['$']
      | d :: r =>
        if d = '$' then '$' :: expandRepl matched pre post groups r
        else if d = '&' then matched ++ expandRepl matched pre post groups r
        else if d = '\'' then post ++ expandRepl matched pre post groups r
        else if d.toNat = 96 then pre ++ expandRepl matched pre post groups r
        else if d.isDigit then
          match r with
          | [] =>
            if (groupRef groups (d.toNat - 48)).isSome then
              (groupRef groups (d.toNat - 48)).getD []
            else ['$', d]
          | e :: r2 =>
            if e.isDigit ∧
                (groupRef groups (10 * (d.toNat - 48) + (e.toNat - 48))).isSome then
              (groupRef groups (10 * (d.toNat - 48) + (e.toNat - 48))).getD [] ++
                expandRepl matched pre post groups r2
            else if (groupRef groups (d.toNat - 48)).isSome then
              (groupRef groups (d.toNat - 48)).getD [] ++
                expandRepl matched pre post groups (e :: r2)
            else '$' :: d :: expandRepl matched pre post groups (e :: r2)
        else '$' :: d :: expandRepl matched pre post groups r
    else c :: expandRepl matched pre post groups rest

/-- `s.replace(pat, tpl)` for a *string* pattern `pat`: replaces the first
occurrence only, with replacement-string processing applied to `tpl`. -/
def replaceFirstStr (pat tpl s : List Char) : List Char :=
  match findFirstSplit pat s with
  | none => s
  | some (p, r) => p ++ expandRepl pat p r [] tpl ++ r

/-- Match, at the current position, a regex of the shape
`L1 [class]+ L2` where `L1`, `L2` are literals and the character class
excludes the first character of `L2` (true of every such pattern in
`index.js`, which makes the greedy `+` deterministic).  Returns the matched
text and the remainder after it. -/
def matchLCL (l1 : List Char) (ok : Char → Bool) (l2 : List Char)
    (cs : List Char) : Option (List Char × List Char) :=
  if l1.isPrefixOf cs then
    let after1 := cs.drop l1.length
    let v := after1.takeWhile ok
    if v.isEmpty then none
    else
      let rest1 := after1.drop v.length
      if l2.isPrefixOf rest1 then some (l1 ++ v ++ l2, rest1.drop l2.length)
      else none
  else none

/-- Leftmost match of an `L1 [class]+ L2` pattern: returns
`(pre, matched, post)`. -/
def findLCL (l1 : List Char) (ok : Char → Bool) (l2 : List Char) :
    List Char → Option (List Char × List Char × List Char)
  | [] => none
  | c :: cs =>
    match matchLCL l1 ok l2 (c :: cs) with
    | some (m, rest) => some ([], m, rest)
    | none => (findLCL l1 ok l2 cs).map (fun q => (c :: q.1, q.2.1, q.2.2))

/-- `s.replace(/L1 [class]+ L2/, tpl)`: replace the leftmost match, with
replacement-string processing (the patterns of this shape in `index.js`
have no capture groups). -/
def replaceLCL (l1 : List Char) (ok : Char → Bool) (l2 : List Char)
    (tpl : List Char) (cs : List Char) : List Char :=
  match findLCL l1 ok l2 cs with
  | none => cs
  | some (p, m, r) => p ++ expandRepl m p r [] tpl ++ r

/-- The literal part of the manifest patterns `"key": "` used by the six
`package.json` substitutions. -/
def keyLit (k : List Char) : List Char :=
  '"' :: k ++ '"' :: ':' :: ' ' :: ['"']

/-- One `packageJson.replace(/"key": "[^"]+"/, '"key": "' + v + '"')`
substitution from `index.js`. -/
def replaceKey (k v : List Char) (cs : List Char) : List Char :=
  replaceLCL (keyLit k) (fun c => c ≠ '"') ['"'] (keyLit k ++ v ++ ['"']) cs

/-- The six key names targeted in `package.json`, in the order the
substitutions are applied. -/
def manifestKeys : List (List Char) :=
  [['n','a','m','e'], ['v','e','r','s','i','o','n'],
   ['d','e','s','c','r','i','p','t','i','o','n'],
   ['a','u','t','h','o','r'], ['l','i','c','e','n','s','e'],
   ['u','r','l']]

/-- The scaffold parameters (data model of the spec): resolved once,
immutable afterwards. -/
structure Params where
  appName : String
  packageName : String
  author : String
  description : String
  version : String
  license : String
  repoURL : String

/-- The six sequential `package.json` substitutions of `run`
(lines 165-170 of `index.js`). -/
def updatePackageJson (p : Params) (s : String) : String :=
  let go := fun (k v : List Char) (cs : List Char) => replaceKey k v cs
  List.asString <|
    go ['u','r','l'] p.repoURL.data <|
    go ['l','i','c','e','n','s','e'] p.license.data <|
    go ['a','u','t','h','o','r'] p.author.data <|
    go ['d','e','s','c','r','i','p','t','i','o','n'] p.description.data <|
    go ['v','e','r','s','i','o','n'] p.version.data <|
    go ['n','a','m','e'] p.packageName.data s.data

/-- `index.replace(/<title>[^<]+<\/title>/, '<title>' + appName + '</title>')`
(line 177). -/
def updateIndexHtml (appName : String) (s : String) : String :=
  List.asString <|
    replaceLCL "<title>".data (fun c => c ≠ '<') "</title>".data
      ("<title>".data ++ appName.data ++ "</title>".data) s.data

/-- `homePage.replace(/<h1>[^<]+<\/h1>/, '<h1>' + appName + '</h1>')`
(line 184). -/
def updateHomePage (appName : String) (s : String) : String :=
  List.asString <|
    replaceLCL "<h1>".data (fun c => c ≠ '<') "</h1>".data
      ("<h1>".data ++ appName.data ++ "</h1>".data) s.data

/-- The prompt validator for the version parameter (line 136):
`v.match(/[0-9]+\.[0-9]+\.[0-9]+/) !== null`.  The regex is unanchored, so
this tests for a *substring* match at some position. -/
def matchVersionHere (cs : List Char) : Bool :=
  let d1 := cs.takeWhile Char.isDigit
  let r1 := cs.drop d1.length
  let rest1 := r1.tail
  let d2 := rest1.takeWhile Char.isDigit
  let r2 := rest1.drop d2.length
  let rest2 := r2.tail
  !d1.isEmpty && r1.head? == some '.' &&
    (!d2.isEmpty && r2.head? == some '.' &&
      !(rest2.takeWhile Char.isDigit).isEmpty)

/-- Search every start position, as the unanchored `match` does. -/
def hasVersionMatch : List Char → Bool
  | [] => false
  | c :: cs => matchVersionHere (c :: cs) || hasVersionMatch cs

/-- The version validator of `run`: accepts exactly when the regex finds a
match somewhere in the input. -/
def versionValid (s : String) : Bool :=
  hasVersionMatch s.data

/-- Spec-side shape (for comparison with the validator): the *whole* string
is `MAJOR.MINOR.PATCH`, three dot-separated nonempty runs of decimal
digits.  Written from the spec sentence, not from the code. -/
def semverShape (s : String) : Bool :=
  let cs := s.data
  let d1 := cs.takeWhile Char.isDigit
  let r1 := cs.drop d1.length
  let rest1 := r1.tail
  let d2 := rest1.takeWhile Char.isDigit
  let r2 := rest1.drop d2.length
  let rest2 := r2.tail
  let d3 := rest2.takeWhile Char.isDigit
  !d1.isEmpty && r1.head? == some '.' &&
    (!d2.isEmpty && r2.head? == some '.' &&
      (!d3.isEmpty && (rest2.drop d3.length).isEmpty))

/-- The LICENSE body substitution of `run` (lines 209-211):
`licenseText.replace('<year>', year).replace('<copyright holders>', author)`.
String patterns, hence first occurrence only; the year is coerced to its
decimal representation. -/
def licenseContents (licenseText : String) (author : String) (year : Nat) :
    String :=
  List.asString <|
    replaceFirstStr "<copyright holders>".data author.data
      (replaceFirstStr "<year>".data (toString year).data licenseText.data)

/-- Backtracking helper for patterns of the shape `[class]+ [\s\S]+ LIT`:
`candRev` holds the (reversed) characters consumed by the greedy `[class]+`
run.  The greedy `[\s\S]+` matches up to the *last* occurrence of `LIT`
provided at least one character lies in between; failing that, the
`[class]+` run gives back one character (it must keep at least one).
Returns `(classRun, gap, after)`; `gapAttempt` is one attempt at the
current backtracking state. -/
def gapAttempt (pat candRev tail : List Char) :
    Option (List Char × List Char × List Char) :=
  match findLastSplit pat tail with
  | some (b, a) => if b.isEmpty then none else some (candRev.reverse, b, a)
  | none => none

def gapLoop (pat : List Char) :
    List Char → List Char → Option (List Char × List Char × List Char)
  | [], tail => gapAttempt pat [] tail
  | [c], tail => gapAttempt pat [c] tail
  | c :: c2 :: rest, tail =>
    match gapAttempt pat (c :: c2 :: rest) tail with
    | some r => some r
    | none => gapLoop pat (c2 :: rest) (c :: tail)

/-- Check `(\s)+(=+)` at the current position: the whitespace run is forced
maximal (shortening it puts a non-`=` whitespace character in front of the
`=+`), then the equals run is maximal.  Returns `(wsRun, eqRun, rest)`. -/
def checkWsEq (cs : List Char) : Option (List Char × List Char × List Char) :=
  let w := cs.takeWhile isJsWs
  if w.isEmpty then none
  else
    let rest1 := cs.drop w.length
    let e := rest1.takeWhile (fun c => c = '=')
    if e.isEmpty then none else some (w, e, rest1.drop e.length)

/-- Backtrack the greedy `.*` of the README title pattern from longest to
shortest until `(\s)+(=+)` matches after it. -/
def titleShrink :
    List Char → List Char → Option (List Char × List Char × List Char × List Char)
  | [], rest =>
    match checkWsEq rest with
    | some (w, e, after) => some ([], w, e, after)
    | none => none
  | c :: aRev2, rest =>
    match checkWsEq rest with
    | some (w, e, after) => some ((c :: aRev2).reverse, w, e, after)
    | none => titleShrink aRev2 (c :: rest)

/-- Match `.*(\s)+(=+)` at the current position (`.` excludes line
terminators).  Returns `(dotPart, wsRun, eqRun, rest)`. -/
def matchTitleAt (cs : List Char) :
    Option (List Char × List Char × List Char × List Char) :=
  let a := cs.takeWhile (fun c => !isLineTerm c)
  titleShrink a.reverse (cs.drop a.length)

/-- Leftmost match of the README title pattern. -/
def findTitle :
    List Char → Option (List Char × (List Char × List Char × List Char × List Char))
  | [] => none
  | c :: cs =>
    match matchTitleAt (c :: cs) with
    | some m => some ([], m)
    | none => (findTitle cs).map (fun q => (c :: q.1, q.2))

/-- `readme.replace(/.*(\s)+(=+)/m, appName + '$1' + '='.repeat(appName.length))`
(line 192).  Group 1 is the last repetition of `(\s)`, group 2 the equals
run. -/
def replaceTitle (appName : List Char) (cs : List Char) : List Char :=
  match findTitle cs with
  | none => cs
  | some (p, (a, w, e, rest)) =>
    let m := a ++ w ++ e
    let tpl := appName ++ '$' :: '1' :: List.replicate appName.length '='
    p ++ expandRepl m p rest [[w.getLastD ' '], e] tpl ++ rest

/-- Match `(=+\s+)([\s\S]+)(?:Requirements)` at the current position.
The equals run is forced maximal; the whitespace run backtracks against
the greedy `[\s\S]+`, which reaches to the last `Requirements`.
Returns `(group1, group2, after)`. -/
def matchDescAt (cs : List Char) :
    Option (List Char × List Char × List Char) :=
  let e := cs.takeWhile (fun c => c = '=')
  if e.isEmpty then none
  else
    let rest1 := cs.drop e.length
    let w := rest1.takeWhile isJsWs
    if w.isEmpty then none
    else
      match gapLoop "Requirements".data w.reverse (rest1.drop w.length) with
      | none => none
      | some (used, gap, after) => some (e ++ used, gap, after)

/-- Leftmost match of the README description pattern. -/
def findDesc : List Char → Option (List Char × (List Char × List Char × List Char))
  | [] => none
  | c :: cs =>
    match matchDescAt (c :: cs) with
    | some m => some ([], m)
    | none => (findDesc cs).map (fun q => (c :: q.1, q.2))

/-- `readme.replace(/(=+\s+)([\s\S]+)(?:Requirements)/, '$1' + description +
'\n\nRequirements')` (line 194). -/
def replaceDesc (description : List Char) (cs : List Char) : List Char :=
  match findDesc cs with
  | none => cs
  | some (p, (g1, g2, after)) =>
    let m := g1 ++ g2 ++ "Requirements".data
    let tpl := '$' :: '1' :: description ++ '\n' :: '\n' :: "Requirements".data
    p ++ expandRepl m p after [g1, g2] tpl ++ after

/-- Match `(Installation\s+-+)[\s\S]+manually:` at the current position.
Returns `(group1, gap, after)`. -/
def matchInstAt (cs : List Char) :
    Option (List Char × List Char × List Char) :=
  if "Installation".data.isPrefixOf cs then
    let rest1 := cs.drop "Installation".data.length
    let w := rest1.takeWhile isJsWs
    if w.isEmpty then none
    else
      let rest2 := rest1.drop w.length
      let d := rest2.takeWhile (fun c => c = '-')
      if d.isEmpty then none
      else
        match gapLoop "manually:".data d.reverse (rest2.drop d.length) with
        | none => none
        | some (used, gap, after) =>
          some ("Installation".data ++ w ++ used, gap, after)
  else none

/-- Leftmost match of the README installation pattern. -/
def findInst : List Char → Option (List Char × (List Char × List Char × List Char))
  | [] => none
  | c :: cs =>
    match matchInstAt (c :: cs) with
    | some m => some ([], m)
    | none => (findInst cs).map (fun q => (c :: q.1, q.2))

/-- `readme.replace(/(Installation\s+-+)[\s\S]+manually:/, '$1')`
(line 196). -/
def replaceInstallation (cs : List Char) : List Char :=
  match findInst cs with
  | none => cs
  | some (p, (g1, g2, after)) =>
    let m := g1 ++ g2 ++ "manually:".data
    p ++ expandRepl m p after [g1, g2] ['$', '1'] ++ after

/-- `readme.replace(/git clone [^`]+/, 'git clone ' + repoURL)` (line 197):
the character class excludes the backtick character (code 96) and there is
no trailing literal. -/
def replaceGitClone (repoURL : List Char) (cs : List Char) : List Char :=
  replaceLCL "git clone ".data (fun c => c.toNat ≠ 96) []
    ("git clone ".data ++ repoURL) cs

/-- Match `Usage\s+-+[\s\S]+Deployment` at the current position.  Returns
`(matched, after)`. -/
def matchUsageAt (cs : List Char) : Option (List Char × List Char) :=
  if "Usage".data.isPrefixOf cs then
    let rest1 := cs.drop "Usage".data.length
    let w := rest1.takeWhile isJsWs
    if w.isEmpty then none
    else
      let rest2 := rest1.drop w.length
      let d := rest2.takeWhile (fun c => c = '-')
      if d.isEmpty then none
      else
        match gapLoop "Deployment".data d.reverse (rest2.drop d.length) with
        | none => none
        | some (used, gap, after) =>
          some ("Usage".data ++ w ++ used ++ gap ++ "Deployment".data, after)
  else none

/-- Leftmost match of the README usage pattern. -/
def findUsage : List Char → Option (List Char × (List Char × List Char))
  | [] => none
  | c :: cs =>
    match matchUsageAt (c :: cs) with
    | some m => some ([], m)
    | none => (findUsage cs).map (fun q => (c :: q.1, q.2))

/-- `readme.replace(/Usage\s+-+[\s\S]+Deployment/, 'Deployment')`
(line 201). -/
def replaceUsage (cs : List Char) : List Char :=
  match findUsage cs with
  | none => cs
  | some (p, (m, after)) =>
    p ++ expandRepl m p after [] "Deployment".data ++ after

/-- The README rewrite of `run` (lines 192-201), in source order: title,
description, installation collapse, clone URL, license word, usage
collapse. -/
def updateReadme (p : Params) (s : String) : String :=
  List.asString <|
    replaceUsage <|
    replaceFirstStr "MIT".data p.license.data <|
    replaceGitClone p.repoURL.data <|
    replaceInstallation <|
    replaceDesc p.description.data <|
    replaceTitle p.appName.data s.data

/-- An entry of the SPDX registry listing, as consumed by `fetchLicense`. -/
structure LicenseEntry where
  licenseId : String
  detailsUrl : String
deriving DecidableEq

/-- The remote SPDX registry as observed by one run: the HTTP status of the
listing fetch, the decoded license list, and for each details URL either
`none` (the fetch or its JSON decoding rejects) or `some t` where `t` is
the `licenseText` field (`none` when the field is absent). -/
structure Registry where
  status : Nat
  licenses : List LicenseEntry
  details : String → Option (Option String)

/-- The failure conditions of the license lookup chain. -/
inductive FetchErr where
  | registryUnavailable
  | licenseNotFound
  | detailFetchFailed
deriving DecidableEq

/-- `fetchLicense` (lines 114-128): reject unless the listing fetch
returned status 200, search for a case-sensitive exact `licenseId` match,
then fetch the matching entry's details URL and return its `licenseText`
(which may be absent, modelled as `.ok none`). -/
def fetchLicense (reg : Registry) (id : String) : Except FetchErr (Option String) :=
  if reg.status ≠ 200 then .error .registryUnavailable
  else
    match reg.licenses.find? (fun l => l.licenseId == id) with
    | none => .error .licenseNotFound
    | some l =>
      match reg.details l.detailsUrl with
      | none => .error .detailFetchFailed
      | some t => .ok t

/-- Observable events of one run: console output, spawned subprocesses
(with the exit code the environment gave them) and file writes. -/
inductive Event where
  | info (msg : String)
  | warn (msg : String)
  | execCmd (cmd : String) (args : List String) (cwd : Option String) (code : Nat)
  | wrote (path : List String) (contents : String)
  | success (msg : String)
deriving DecidableEq

/-- The file system, keyed by paths as component lists (`path.join` in the
source concatenates components). -/
def FS : Type := List String → Option String

/-- The environment of one run: registry responses, the contents the
template repository provides (keyed by repository-relative path), the
pre-existing file system, the exit code of each spawned subprocess, and
the current calendar year. -/
structure Env where
  registry : Registry
  template : List String → Option String
  fs0 : FS
  exitCode : String → List String → Nat
  year : Nat

/-- State threaded through the pipeline: file system plus event trace. -/
structure RunState where
  fs : FS
  trace : List Event

/-- Overwrite one path. -/
def writePath (fs : FS) (p : List String) (v : String) : FS :=
  fun q => if q = p then some v else fs q

/-- Effect of `rm` / `rm -rf` on a path: the path and everything below it
disappear. -/
def removePath (fs : FS) (p : List String) : FS :=
  fun q => if p.isPrefixOf q then none else fs q

/-- Effect of a successful `git clone` of the template into `pkg`. -/
def clonePopulate (tpl : List String → Option String) (pkg : String)
    (fs : FS) : FS :=
  fun q =>
    match q with
    | [] => fs []
    | x :: rest => if x = pkg then tpl rest else fs q

/-- Render a path for a subprocess argument list. -/
def joinPath (p : List String) : String := String.intercalate "/" p

/-- The fixed template repository URL. -/
def starterURL : String := "https://github.com/foxxyz/front-end-starter.git"

/-- One read-rewrite-write step of `run`: `console.info`, `readFile`,
transform, `writeFile`.  A missing file makes the `readFile` promise
reject, which propagates uncaught: the run aborts (`false`). -/
def stepEdit (st : RunState) (msg : String) (path : List String)
    (f : String → String) : RunState × Bool :=
  let st1 : RunState := ⟨st.fs, st.trace ++ [Event.info msg]⟩
  match st1.fs path with
  | none => (st1, false)
  | some c =>
    (⟨writePath st1.fs path (f c), st1.trace ++ [Event.wrote path (f c)]⟩, true)

/-- Sequence steps, propagating an abort. -/
def andThen (r : RunState × Bool) (f : RunState → RunState × Bool) :
    RunState × Bool :=
  if r.2 then f r.1 else r

/-- The `catch` branch of the license section (lines 213-216): warn, then
spawn `rm` on the LICENSE path. -/
def licenseCatch (env : Env) (pkg : String) (st : RunState) : RunState :=
  let licenseFile : List String := [pkg, "LICENSE"]
  let code := env.exitCode "rm" [joinPath licenseFile]
  ⟨removePath st.fs licenseFile,
   st.trace ++ [Event.warn "Skipping LICENSE creation...",
                Event.execCmd "rm" [joinPath licenseFile] none code]⟩

/-- The license section of `run` (lines 204-216).  On `.ok (some text)`
the substituted contents are written; a thrown lookup error, and equally a
missing `licenseText` field (the `.replace` call on `undefined` throws),
land in the `catch` branch. -/
def licenseStep (env : Env) (p : Params) (st : RunState) : RunState :=
  let pkg := p.packageName
  let licenseFile : List String := [pkg, "LICENSE"]
  let st1 : RunState :=
    ⟨st.fs, st.trace ++
      [Event.info ("Attempting to fetch '" ++ p.license ++ "' license...")]⟩
  match fetchLicense env.registry p.license with
  | .ok (some text) =>
    let contents := licenseContents text p.author env.year
    ⟨writePath st1.fs licenseFile contents,
     st1.trace ++ [Event.wrote licenseFile contents]⟩
  | _ => licenseCatch env pkg st1

/-- Repository finalization (lines 218-235): `git init`, conditional
`git remote add origin` (skipped with a warning when the repository URL is
empty), `npm install`. -/
def finalSteps (env : Env) (p : Params) (st : RunState) : RunState :=
  let pkg := p.packageName
  let initCode := env.exitCode "git" ["init"]
  let st1 : RunState :=
    ⟨st.fs, st.trace ++ [Event.info "Starting new git repository...",
                         Event.execCmd "git" ["init"] (some pkg) initCode]⟩
  let st2 : RunState :=
    if p.repoURL ≠ "" then
      let c := env.exitCode "git" ["remote", "add", "origin", p.repoURL]
      ⟨st1.fs, st1.trace ++
        [Event.info ("Adding git remote origin for " ++ p.repoURL ++ "..."),
         Event.execCmd "git" ["remote", "add", "origin", p.repoURL] (some pkg) c]⟩
    else
      ⟨st1.fs, st1.trace ++
        [Event.warn "Skipping adding git remote, no repository information..."]⟩
  let c3 := env.exitCode "npm" ["install"]
  ⟨st2.fs, st2.trace ++ [Event.info "Installing dependencies...",
                         Event.execCmd "npm" ["install"] (some pkg) c3,
                         Event.success ("Done! New app ready at " ++ pkg)]⟩

/-- The pipeline of `run` (lines 130-236).  `exec` awaits the `close`
event and ignores the exit code, so subprocess steps never abort the run;
a failed clone simply leaves the target absent, and the run then dies at
the first `readFile`.  The returned flag is `true` when the run reached
the end. -/
def run (env : Env) (p : Params) : RunState × Bool :=
  let pkg := p.packageName
  let cloneCode := env.exitCode "git" ["clone", starterURL, pkg]
  let fs1 := if cloneCode = 0 then clonePopulate env.template pkg env.fs0 else env.fs0
  let gitDir : List String := [pkg, ".git"]
  let ciDir : List String := [pkg, ".github"]
  let lock : List String := [pkg, "package-lock.json"]
  let st0 : RunState :=
    ⟨removePath (removePath (removePath fs1 gitDir) ciDir) lock,
     [Event.info "----- Front-End Generator ------",
      Event.info ("Cloning into " ++ pkg ++ "..."),
      Event.execCmd "git" ["clone", starterURL, pkg] none cloneCode,
      Event.info "Removing existing git repo info...",
      Event.execCmd "rm" ["-rf", joinPath gitDir] none
        (env.exitCode "rm" ["-rf", joinPath gitDir]),
      Event.info "Removing CI directory...",
      Event.execCmd "rm" ["-rf", joinPath ciDir] none
        (env.exitCode "rm" ["-rf", joinPath ciDir]),
      Event.info "Removing package-lock.json...",
      Event.execCmd "rm" [joinPath lock] none (env.exitCode "rm" [joinPath lock])]⟩
  andThen (stepEdit st0 "Updating package.json..." [pkg, "package.json"]
      (updatePackageJson p)) fun s1 =>
  andThen (stepEdit s1 "Updating index.html..." [pkg, "index.html"]
      (updateIndexHtml p.appName)) fun s2 =>
  andThen (stepEdit s2 "Updating home.vue..." [pkg, "src", "pages", "home.vue"]
      (updateHomePage p.appName)) fun s3 =>
  andThen (stepEdit s3 "Updating README.md..." [pkg, "README.md"]
      (updateReadme p)) fun s4 =>
  (finalSteps env p (licenseStep env p s4), true)

/-- Spec-side notion (for comparison with the code): an HTTP success
status is any 2xx status.  Written from the spec sentence "fail with a
RegistryUnavailable condition if the registry does not respond with
success status". -/
def httpSuccessStatus (n : Nat) : Prop := 200 ≤ n ∧ n < 300

/-- Concrete witness environment for C1: registry down (status 500), all
four template files present. -/
def witEnv : Env :=
  ⟨⟨500, [], fun _ => none⟩,
   fun f =>
     if f = ["package.json"] then some "\"name\": \"old\"" else
     if f = ["index.html"] then some "<title>Old</title>" else
     if f = ["src", "pages", "home.vue"] then some "<h1>Old</h1>" else
     if f = ["README.md"] then some "T\n=\nx" else none,
   fun _ => none, fun _ _ => 0, 2025⟩

/-- Concrete witness parameters for C1. -/
def witParams : Params := ⟨"A", "pkg", "au", "d", "1.0.0", "MIT", "u"⟩

theorem drop_length_takeWhile (p : Char → Bool) (l : List Char) :
    l.drop (l.takeWhile p).length = l.dropWhile p := by
  induction l with
  | nil => rfl
  | cons c cs ih =>
    by_cases h : p c <;>
      simp [List.takeWhile_cons, List.dropWhile_cons, h, ih]

theorem takeWhile_all_append (p : Char → Bool) (xs ys : List Char) (y : Char)
    (h : ∀ x ∈ xs, p x = true) (hy : p y = false) :
    (xs ++ y :: ys).takeWhile p = xs := by
  induction xs with
  | nil => simp [List.takeWhile_cons, hy]
  | cons x xs ih =>
    have hx : p x = true := h x (by simp)
    simp only [List.cons_append, List.takeWhile_cons, hx, if_true]
    have := ih (fun z hz => h z (by simp [hz]))
    simp [this]

theorem matchVersionHere_sound (cs : List Char)
    (h : matchVersionHere cs = true) :
    ∃ a b c post, cs = a ++ '.' :: b ++ '.' :: c ++ post ∧
      a ≠ [] ∧ b ≠ [] ∧ c ≠ [] ∧
      (∀ x ∈ a, x.isDigit = true) ∧ (∀ x ∈ b, x.isDigit = true) ∧
      (∀ x ∈ c, x.isDigit = true) := by
  unfold matchVersionHere at h
  simp only [drop_length_takeWhile, Bool.and_eq_true, beq_iff_eq,
    Bool.not_eq_true'] at h
  obtain ⟨⟨h1, h2⟩, ⟨h3, h4⟩, h5⟩ := h
  cases hd : List.dropWhile Char.isDigit cs with
  | nil => rw [hd] at h2; exact absurd h2 (by simp)
  | cons x rest1 =>
    rw [hd] at h2 h3 h4 h5
    obtain rfl : x = '.' := by simpa using h2
    simp only [List.tail_cons] at h3 h4 h5
    cases hd2 : List.dropWhile Char.isDigit rest1 with
    | nil => rw [hd2] at h4; exact absurd h4 (by simp)
    | cons y rest2 =>
      rw [hd2] at h4 h5
      obtain rfl : y = '.' := by simpa using h4
      simp only [List.tail_cons] at h5
      have e1 : cs = cs.takeWhile Char.isDigit ++ '.' :: rest1 := by
        conv_lhs => rw [← List.takeWhile_append_dropWhile Char.isDigit cs]
        rw [hd]
      have e2 : rest1 = rest1.takeWhile Char.isDigit ++ '.' :: rest2 := by
        conv_lhs => rw [← List.takeWhile_append_dropWhile Char.isDigit rest1]
        rw [hd2]
      have e3 : rest2 = rest2.takeWhile Char.isDigit ++
          rest2.drop (rest2.takeWhile Char.isDigit).length := by
        rw [drop_length_takeWhile]
        exact (List.takeWhile_append_dropWhile _ _).symm
      refine ⟨cs.takeWhile Char.isDigit, rest1.takeWhile Char.isDigit,
        rest2.takeWhile Char.isDigit,
        rest2.drop (rest2.takeWhile Char.isDigit).length, ?_, ?_, ?_, ?_,
        ?_, ?_, ?_⟩
      · conv_lhs => rw [e1, e2, e3]
        simp [List.append_assoc]
      · intro hc; rw [hc] at h1; simp at h1
      · intro hc; rw [hc] at h3; simp at h3
      · intro hc; rw [hc] at h5; simp at h5
      · exact fun x hx => List.mem_takeWhile_imp hx
      · exact fun x hx => List.mem_takeWhile_imp hx
      · exact fun x hx => List.mem_takeWhile_imp hx

theorem matchVersionHere_complete (a b c post : List Char)
    (ha : a ≠ []) (hb : b ≠ []) (hc : c ≠ [])
    (hda : ∀ x ∈ a, x.isDigit = true) (hdb : ∀ x ∈ b, x.isDigit = true)
    (hdc : ∀ x ∈ c, x.isDigit = true) :
    matchVersionHere (a ++ '.' :: b ++ '.' :: c ++ post) = true := by
  have hdot : Char.isDigit '.' = false := by decide
  obtain ⟨z, c', rfl⟩ : ∃ z c', c = z :: c' := by
    cases c with
    | nil => exact absurd rfl hc
    | cons z c' => exact ⟨z, c', rfl⟩
  have hz : Char.isDigit z = true := hdc z (by simp)
  simp only [List.cons_append, List.append_assoc]
  have t1 : List.takeWhile Char.isDigit
      (a ++ '.' :: (b ++ '.' :: z :: (c' ++ post))) = a :=
    takeWhile_all_append _ a _ '.' hda hdot
  have t3 : List.takeWhile Char.isDigit (b ++ '.' :: z :: (c' ++ post)) = b :=
    takeWhile_all_append _ b _ '.' hdb hdot
  simp only [matchVersionHere, t1, List.drop_left, List.head?_cons,
    List.tail_cons]
  simp only [t3, List.drop_left, List.head?_cons, List.tail_cons,
    List.takeWhile_cons, hz, if_true]
  simp [List.isEmpty_iff, ha, hb]

theorem hasVersionMatch_of_here (cs : List Char)
    (h : matchVersionHere cs = true) : hasVersionMatch cs = true := by
  cases cs with
  | nil => exact absurd h (by decide)
  | cons x cs => simp [hasVersionMatch, h]

theorem hasVersionMatch_append_right (pre rest : List Char)
    (h : hasVersionMatch rest = true) :
    hasVersionMatch (pre ++ rest) = true := by
  induction pre with
  | nil => simpa using h
  | cons x pre ih =>
    cases hr : rest with
    | nil => rw [hr] at h; exact absurd h (by decide)
    | cons y rs =>
      rw [hr] at ih h
      simp only [List.cons_append, hasVersionMatch, Bool.or_eq_true]
      right
      exact ih

theorem hasVersionMatch_sound (cs : List Char)
    (h : hasVersionMatch cs = true) :
    ∃ pre a b c post, cs = pre ++ a ++ '.' :: b ++ '.' :: c ++ post ∧
      a ≠ [] ∧ b ≠ [] ∧ c ≠ [] ∧
      (∀ x ∈ a, x.isDigit = true) ∧ (∀ x ∈ b, x.isDigit = true) ∧
      (∀ x ∈ c, x.isDigit = true) := by
  induction cs with
  | nil => exact absurd h (by decide)
  | cons x cs ih =>
    rcases Bool.or_eq_true _ _ |>.mp h with hh | ht
    · obtain ⟨a, b, c, post, heq, ha, hb, hc, hda, hdb, hdc⟩ :=
        matchVersionHere_sound _ hh
      exact ⟨[], a, b, c, post, by simpa [List.append_assoc] using heq,
        ha, hb, hc, hda, hdb, hdc⟩
    · obtain ⟨pre, a, b, c, post, heq, rest⟩ := ih ht
      exact ⟨x :: pre, a, b, c, post, by simp [heq], rest⟩

theorem semverShape_here (s : String) (h : semverShape s = true) :
    matchVersionHere s.data = true := by
  unfold semverShape at h
  unfold matchVersionHere
  simp only [Bool.and_eq_true] at h ⊢
  exact ⟨h.1, h.2.1, h.2.2.1⟩

/-- C4 (corrected).  The version validator accepts exactly the strings
*containing* a substring of the shape MAJOR.MINOR.PATCH (three
dot-separated nonempty runs of decimal digits): the regex
`/[0-9]+\.[0-9]+\.[0-9]+/` is unanchored.  In particular every string that
is itself of that shape is accepted. -/
theorem C4_versionValidator_characterization (s : String) :
    (versionValid s = true ↔
      ∃ pre a b c post, s.data = pre ++ a ++ '.' :: b ++ '.' :: c ++ post ∧
        a ≠ [] ∧ b ≠ [] ∧ c ≠ [] ∧
        (∀ x ∈ a, x.isDigit = true) ∧ (∀ x ∈ b, x.isDigit = true) ∧
        (∀ x ∈ c, x.isDigit = true)) ∧
    (semverShape s = true → versionValid s = true) := by
  constructor
  · constructor
    · exact fun h => hasVersionMatch_sound _ h
    · rintro ⟨pre, a, b, c, post, heq, ha, hb, hc, hda, hdb, hdc⟩
      unfold versionValid
      rw [heq]
      have hm := matchVersionHere_complete a b c post ha hb hc hda hdb hdc
      have := hasVersionMatch_append_right pre _ (hasVersionMatch_of_here _ hm)
      simpa [List.append_assoc] using this
  · intro h
    exact hasVersionMatch_of_here _ (semverShape_here s h)

/-- C4 witness: `"1.2.3"` is of MAJOR.MINOR.PATCH shape and the validator
accepts it. -/
theorem C4_versionValidator_witness : versionValid "1.2.3" = true :=
  (C4_versionValidator_characterization "1.2.3").2 (by decide)

/-- C4 counterexample: the claim says every string lacking the
MAJOR.MINOR.PATCH shape is rejected, but `"v1.2.3"` lacks the shape and is
accepted (the regex is unanchored), while `"v1"` and `"1.2"` are indeed
rejected. -/
theorem C4_counterexample :
    versionValid "v1.2.3" = true ∧ semverShape "v1.2.3" = false ∧
    versionValid "v1" = false ∧ versionValid "1.2" = false := by decide

theorem asString_data (s : String) : s.data.asString = s := rfl

theorem findLCL_eq_none (l1 : List Char) (ok : Char → Bool) (l2 cs : List Char)
    (h : containsSub l1 cs = false) : findLCL l1 ok l2 cs = none := by
  induction cs with
  | nil => rfl
  | cons c cs ih =>
    simp only [containsSub, Bool.or_eq_false_iff] at h
    have h2 := ih h.2
    simp [findLCL, matchLCL, h.1, h2]

theorem replaceLCL_noop (l1 : List Char) (ok : Char → Bool)
    (l2 tpl cs : List Char) (h : containsSub l1 cs = false) :
    replaceLCL l1 ok l2 tpl cs = cs := by
  unfold replaceLCL
  rw [findLCL_eq_none l1 ok l2 cs h]

/-- C8 (confirmed).  A file lacking the expected marker is left untouched:
an index.html with no `<title>` opening tag is returned byte-identical by
the title rewrite, and a home page with no `<h1>` opening tag is returned
byte-identical by the heading rewrite. -/
theorem C8_missing_marker_noop (s t : String) :
    (containsSub "<title>".data s.data = false → updateIndexHtml t s = s) ∧
    (containsSub "<h1>".data s.data = false → updateHomePage t s = s) := by
  constructor
  · intro h
    unfold updateIndexHtml
    rw [replaceLCL_noop _ _ _ _ _ h, asString_data]
  · intro h
    unfold updateHomePage
    rw [replaceLCL_noop _ _ _ _ _ h, asString_data]

/-- C8 witness: concrete marker-free files pass through unchanged. -/
theorem C8_missing_marker_noop_witness :
    updateIndexHtml "App" "<body>x</body>" = "<body>x</body>" ∧
    updateHomePage "App" "<div>x</div>" = "<div>x</div>" :=
  ⟨(C8_missing_marker_noop "<body>x</body>" "App").1 (by decide),
   (C8_missing_marker_noop "<div>x</div>" "App").2 (by decide)⟩

/-- C2 (corrected).  The license lookup fails with `RegistryUnavailable`
exactly when the listing fetch status differs from 200 (not merely when it
is not a success status); with status 200 it fails with `LicenseNotFound`
exactly when no entry's `licenseId` equals the input under case-sensitive
exact comparison; otherwise it returns the license text fetched from the
matching entry's detail URL. -/
theorem C2_fetchLicense_characterization (reg : Registry) (id : String) :
    (fetchLicense reg id = .error .registryUnavailable ↔ reg.status ≠ 200) ∧
    (reg.status = 200 →
      (fetchLicense reg id = .error .licenseNotFound ↔
        ∀ l ∈ reg.licenses, l.licenseId ≠ id)) ∧
    (∀ l t, reg.status = 200 →
      reg.licenses.find? (fun e => e.licenseId == id) = some l →
      reg.details l.detailsUrl = some (some t) →
      fetchLicense reg id = .ok (some t)) := by
  refine ⟨⟨?_, ?_⟩, ?_, ?_⟩
  · intro he
    by_contra hs
    rw [fetchLicense, if_neg (by simp [hs])] at he
    cases hf : reg.licenses.find? (fun e => e.licenseId == id) with
    | none => rw [hf] at he; simp at he
    | some l =>
      cases hd : reg.details l.detailsUrl with
      | none => simp only [hf, hd] at he; exact absurd he (by simp)
      | some t => simp only [hf, hd] at he; exact absurd he (by simp)
  · intro hs
    rw [fetchLicense, if_pos hs]
  · intro hs
    rw [fetchLicense, if_neg (by simp [hs])]
    cases hf : reg.licenses.find? (fun e => e.licenseId == id) with
    | none =>
      simp only [hf]
      constructor
      · intro _ l hl hid
        have := List.find?_eq_none.mp hf l hl
        simp [hid] at this
      · intro _
        trivial
    | some l =>
      simp only [hf]
      have hmem := List.mem_of_find?_eq_some hf
      have hp := List.find?_some hf
      have hid : l.licenseId = id := by simpa using hp
      cases hd : reg.details l.detailsUrl with
      | none =>
        simp only [hd]
        constructor
        · intro he; simp at he
        · intro hall; exact absurd hid (hall l hmem)
      | some t =>
        simp only [hd]
        constructor
        · intro he; simp at he
        · intro hall; exact absurd hid (hall l hmem)
  · intro l t hs hf hd
    rw [fetchLicense, if_neg (by simp [hs])]
    simp only [hf, hd]

/-- C2 witness: with a 200 listing containing an MIT entry whose detail
URL yields a text, the lookup returns that text. -/
theorem C2_fetchLicense_witness :
    fetchLicense
      ⟨200, [⟨"MIT", "u"⟩], fun u => if u = "u" then some (some "T") else none⟩
      "MIT" = .ok (some "T") :=
  (C2_fetchLicense_characterization
      ⟨200, [⟨"MIT", "u"⟩], fun u => if u = "u" then some (some "T") else none⟩
      "MIT").2.2 ⟨"MIT", "u"⟩ "T" rfl (by decide) (by decide)

/-- C2 counterexample: a 201 response is an HTTP success status, the
listing even contains the requested identifier, yet the lookup fails with
`RegistryUnavailable` — so "fails exactly when the fetch does not return a
success status" is false as stated. -/
theorem C2_counterexample :
    httpSuccessStatus 201 ∧
    fetchLicense ⟨201, [⟨"MIT", "u"⟩], fun _ => some (some "T")⟩ "MIT" =
      .error .registryUnavailable := by
  constructor
  · exact ⟨by decide, by decide⟩
  · rfl

set_option maxHeartbeats 1000000 in
theorem expandRepl_no_dollar (matched pre post : List Char)
    (groups : List (List Char)) (tpl : List Char)
    (h : ∀ c ∈ tpl, c ≠ '$') :
    expandRepl matched pre post groups tpl = tpl := by
  induction tpl with
  | nil => rfl
  | cons c rest ih =>
    have hc : c ≠ '$' := h c (by simp)
    unfold expandRepl
    rw [if_neg hc]
    rw [ih (fun x hx => h x (by simp [hx]))]

theorem findFirstSplit_append_of_head_notin (pat tail : List Char) (hc : Char)
    (hhead : pat.head? = some hc) (pre : List Char)
    (hpre : ∀ c ∈ pre, c ≠ hc) (hpat : pat.isPrefixOf tail = true) :
    findFirstSplit pat (pre ++ tail) = some (pre, tail.drop pat.length) := by
  induction pre with
  | nil =>
    cases tail with
    | nil =>
      have : pat = [] := by simpa using List.isPrefixOf_iff_prefix.mp hpat
      rw [this] at hhead
      simp at hhead
    | cons t ts => simp [findFirstSplit, hpat]
  | cons c pre ih =>
    have hne : pat.isPrefixOf (c :: (pre ++ tail)) = false := by
      cases pat with
      | nil => simp at hhead
      | cons p ps =>
        have hp : p = hc := by simpa using hhead
        have hcne : c ≠ hc := hpre c (by simp)
        have hpc : (p == c) = false := by
          rw [hp]
          exact beq_eq_false_iff_ne.mpr (Ne.symm hcne)
        show (p == c && ps.isPrefixOf (pre ++ tail)) = false
        rw [hpc, Bool.false_and]
    rw [List.cons_append]
    unfold findFirstSplit
    rw [hne]
    simp only [Bool.false_eq_true, if_false]
    rw [ih (fun x hx => hpre x (by simp [hx]))]
    rfl

theorem mem_of_containsSub (pat l : List Char) (c : Char)
    (hhead : pat.head? = some c) (h : containsSub pat l = true) : c ∈ l := by
  induction l with
  | nil =>
    unfold containsSub at h
    have hnil : pat = [] := by simpa using List.isPrefixOf_iff_prefix.mp h
    rw [hnil] at hhead
    simp at hhead
  | cons x xs ih =>
    unfold containsSub at h
    rcases Bool.or_eq_true _ _ |>.mp h with hp | hr
    · cases pat with
      | nil => simp at hhead
      | cons p ps =>
        have hpc : p = c := by simpa using hhead
        have hpx : p = x :=
          (List.cons_prefix_cons.mp (List.isPrefixOf_iff_prefix.mp hp)).1
        have hcx : c = x := hpc ▸ hpx
        rw [hcx]
        exact List.mem_cons_self x xs
    · exact List.mem_cons.mpr (Or.inr (ih hr))

theorem isDigit_ne_markers (c : Char) (h : c.isDigit = true) :
    c ≠ '<' ∧ c ≠ '>' ∧ c ≠ '$' := by
  refine ⟨?_, ?_, ?_⟩ <;> intro hc <;> rw [hc] at h <;> exact absurd h (by decide)

/-- C3 (corrected).  Each placeholder substitution replaces only the
*first* occurrence of its token (JavaScript `replace` with a string
pattern).  For a license body that contains the year placeholder once,
then the holder placeholder once, and no other angle brackets — the shape
of real SPDX license texts — the generated contents equal the body with
the year placeholder replaced by the decimal year and the holder
placeholder replaced by the author, and no placeholder tokens remain. -/
theorem C3_licenseSubstitution (a m b : List Char) (author : String)
    (year : Nat)
    (ha : ∀ c ∈ a, c ≠ '<' ∧ c ≠ '>')
    (hm : ∀ c ∈ m, c ≠ '<' ∧ c ≠ '>')
    (hb : ∀ c ∈ b, c ≠ '<' ∧ c ≠ '>')
    (hauth : ∀ c ∈ author.data, c ≠ '<' ∧ c ≠ '>' ∧ c ≠ '$')
    (hyear : ∀ c ∈ (toString year).data, c.isDigit = true) :
    (licenseContents
        ⟨a ++ "<year>".data ++ m ++ "<copyright holders>".data ++ b⟩
        author year).data =
      a ++ (toString year).data ++ m ++ author.data ++ b ∧
    containsSub "<year>".data
      (a ++ (toString year).data ++ m ++ author.data ++ b) = false ∧
    containsSub "<copyright holders>".data
      (a ++ (toString year).data ++ m ++ author.data ++ b) = false := by
  have hyd : ∀ c ∈ (toString year).data, c ≠ '<' ∧ c ≠ '>' ∧ c ≠ '$' :=
    fun c hc => isDigit_ne_markers c (hyear c hc)
  have step1 : findFirstSplit "<year>".data
      (a ++ ("<year>".data ++ (m ++ ("<copyright holders>".data ++ b)))) =
      some (a, ("<year>".data ++
        (m ++ ("<copyright holders>".data ++ b))).drop "<year>".data.length) := by
    refine findFirstSplit_append_of_head_notin _ _ '<' (by rfl) a
      (fun c hc => (ha c hc).1) ?_
    exact List.isPrefixOf_iff_prefix.mpr ⟨_, rfl⟩
  have r1 : replaceFirstStr "<year>".data (toString year).data
      (a ++ ("<year>".data ++ (m ++ ("<copyright holders>".data ++ b)))) =
      a ++ ((toString year).data ++ (m ++ ("<copyright holders>".data ++ b))) := by
    unfold replaceFirstStr
    rw [step1]
    rw [List.drop_left]
    show a ++ expandRepl "<year>".data a
        (m ++ ("<copyright holders>".data ++ b)) [] (toString year).data ++
        (m ++ ("<copyright holders>".data ++ b)) = _
    rw [expandRepl_no_dollar _ _ _ _ _ (fun c hc => (hyd c hc).2.2)]
    simp [List.append_assoc]
  have reassoc : a ++ ((toString year).data ++
      (m ++ ("<copyright holders>".data ++ b))) =
      (a ++ ((toString year).data ++ m)) ++ ("<copyright holders>".data ++ b) := by
    simp [List.append_assoc]
  have hpre2 : ∀ c ∈ a ++ ((toString year).data ++ m), c ≠ '<' := by
    intro c hc
    rcases List.mem_append.mp hc with h1 | h2
    · exact (ha c h1).1
    · rcases List.mem_append.mp h2 with h3 | h4
      · exact (hyd c h3).1
      · exact (hm c h4).1
  have step2 : findFirstSplit "<copyright holders>".data
      ((a ++ ((toString year).data ++ m)) ++ ("<copyright holders>".data ++ b)) =
      some (a ++ ((toString year).data ++ m),
        ("<copyright holders>".data ++ b).drop "<copyright holders>".data.length) := by
    refine findFirstSplit_append_of_head_notin _ _ '<' (by rfl) _ hpre2 ?_
    exact List.isPrefixOf_iff_prefix.mpr ⟨_, rfl⟩
  have r2 : replaceFirstStr "<copyright holders>".data author.data
      ((a ++ ((toString year).data ++ m)) ++ ("<copyright holders>".data ++ b)) =
      (a ++ ((toString year).data ++ m)) ++ (author.data ++ b) := by
    unfold replaceFirstStr
    rw [step2]
    rw [List.drop_left]
    show (a ++ ((toString year).data ++ m)) ++
        expandRepl "<copyright holders>".data (a ++ ((toString year).data ++ m))
          b [] author.data ++ b = _
    rw [expandRepl_no_dollar _ _ _ _ _ (fun c hc => (hauth c hc).2.2)]
    simp [List.append_assoc]
  have main : (licenseContents
      ⟨a ++ "<year>".data ++ m ++ "<copyright holders>".data ++ b⟩
      author year).data =
      a ++ (toString year).data ++ m ++ author.data ++ b := by
    show (replaceFirstStr "<copyright holders>".data author.data
      (replaceFirstStr "<year>".data (toString year).data
        (a ++ "<year>".data ++ m ++ "<copyright holders>".data ++ b))).asString.data =
      a ++ (toString year).data ++ m ++ author.data ++ b
    have e0 : a ++ "<year>".data ++ m ++ "<copyright holders>".data ++ b =
        a ++ ("<year>".data ++ (m ++ ("<copyright holders>".data ++ b))) := by
      simp [List.append_assoc]
    rw [e0, r1, reassoc, r2]
    show (a ++ ((toString year).data ++ m)) ++ (author.data ++ b) =
      a ++ (toString year).data ++ m ++ author.data ++ b
    simp [List.append_assoc]
  refine ⟨main, ?_, ?_⟩
  · have noLt : '<' ∉ a ++ (toString year).data ++ m ++ author.data ++ b := by
      intro hmem
      simp only [List.mem_append] at hmem
      rcases hmem with (((h1 | h2) | h3) | h4) | h5
      · exact (ha _ h1).1 rfl
      · exact (hyd _ h2).1 rfl
      · exact (hm _ h3).1 rfl
      · exact (hauth _ h4).1 rfl
      · exact (hb _ h5).1 rfl
    cases hcon : containsSub "<year>".data
        (a ++ (toString year).data ++ m ++ author.data ++ b) with
    | false => rfl
    | true => exact absurd (mem_of_containsSub _ _ '<' (by rfl) hcon) noLt
  · have noLt : '<' ∉ a ++ (toString year).data ++ m ++ author.data ++ b := by
      intro hmem
      simp only [List.mem_append] at hmem
      rcases hmem with (((h1 | h2) | h3) | h4) | h5
      · exact (ha _ h1).1 rfl
      · exact (hyd _ h2).1 rfl
      · exact (hm _ h3).1 rfl
      · exact (hauth _ h4).1 rfl
      · exact (hb _ h5).1 rfl
    cases hcon : containsSub "<copyright holders>".data
        (a ++ (toString year).data ++ m ++ author.data ++ b) with
    | false => rfl
    | true => exact absurd (mem_of_containsSub _ _ '<' (by rfl) hcon) noLt

/-- C3 witness: a MIT-shaped body with each placeholder once gets both
placeholders substituted and no leftover tokens. -/
theorem C3_licenseSubstitution_witness :
    (licenseContents
        ⟨"Copyright (c) ".data ++ "<year>".data ++ " ".data ++
          "<copyright holders>".data ++ ".".data⟩ "Ann" 2025).data =
      "Copyright (c) ".data ++ (toString 2025).data ++ " ".data ++
        "Ann".data ++ ".".data ∧
    containsSub "<year>".data
      ("Copyright (c) ".data ++ (toString 2025).data ++ " ".data ++
        "Ann".data ++ ".".data) = false ∧
    containsSub "<copyright holders>".data
      ("Copyright (c) ".data ++ (toString 2025).data ++ " ".data ++
        "Ann".data ++ ".".data) = false :=
  C3_licenseSubstitution "Copyright (c) ".data " ".data ".".data "Ann" 2025
    (by decide) (by decide) (by decide) (by decide) (by decide)

/-- C3 counterexample: when the year placeholder occurs twice, only the
first occurrence is replaced and a placeholder token remains, contrary to
the claim. -/
theorem C3_counterexample :
    licenseContents "<year> <year>" "Ann" 2025 = "2025 <year>" ∧
    containsSub "<year>".data (licenseContents "<year> <year>" "Ann" 2025).data =
      true := by
  constructor
  · rfl
  · decide

theorem matchLCL_eq_some (l1 : List Char) (ok : Char → Bool)
    (l2 cs m rest : List Char)
    (h : matchLCL l1 ok l2 cs = some (m, rest)) :
    ∃ v, v = (cs.drop l1.length).takeWhile ok ∧ m = l1 ++ v ++ l2 ∧ v ≠ [] ∧
      (∀ c ∈ v, ok c = true) ∧ cs = (l1 ++ v ++ l2) ++ rest := by
  unfold matchLCL at h
  by_cases hp1 : l1.isPrefixOf cs
  · simp only [hp1, if_true] at h
    by_cases hve : ((cs.drop l1.length).takeWhile ok).isEmpty
    · simp only [hve, if_true] at h
      exact absurd h (by simp)
    · simp only [hve, Bool.false_eq_true, if_false] at h
      by_cases hp2 : l2.isPrefixOf ((cs.drop l1.length).drop
          ((cs.drop l1.length).takeWhile ok).length)
      · simp only [hp2, if_true, Option.some.injEq, Prod.mk.injEq] at h
        obtain ⟨hm, hrest⟩ := h
        refine ⟨(cs.drop l1.length).takeWhile ok, rfl, hm.symm, ?_, ?_, ?_⟩
        · intro hc
          rw [hc] at hve
          simp at hve
        · exact fun c hc => List.mem_takeWhile_imp hc
        · have e1 : cs = l1 ++ cs.drop l1.length := by
            have := List.isPrefixOf_iff_prefix.mp hp1
            obtain ⟨t, ht⟩ := this
            rw [← ht]
            simp
          have e2 : cs.drop l1.length =
              (cs.drop l1.length).takeWhile ok ++
                ((cs.drop l1.length).drop
                  ((cs.drop l1.length).takeWhile ok).length) := by
            rw [drop_length_takeWhile]
            exact (List.takeWhile_append_dropWhile _ _).symm
          have e3 : (cs.drop l1.length).drop
              ((cs.drop l1.length).takeWhile ok).length = l2 ++ rest := by
            have := List.isPrefixOf_iff_prefix.mp hp2
            obtain ⟨t, ht⟩ := this
            rw [← hrest, ← ht]
            simp
          conv_lhs => rw [e1, e2, e3]
          simp [List.append_assoc]
      · simp only [hp2, Bool.false_eq_true, if_false] at h
        exact absurd h (by simp)
  · simp only [hp1, Bool.false_eq_true, if_false] at h
    exact absurd h (by simp)

theorem findLCL_eq_some (l1 : List Char) (ok : Char → Bool)
    (l2 : List Char) (cs p m r : List Char)
    (h : findLCL l1 ok l2 cs = some (p, m, r)) :
    cs = (p ++ m) ++ r ∧ matchLCL l1 ok l2 (m ++ r) = some (m, r) ∧
    ∀ j < p.length, matchLCL l1 ok l2 ((p.drop j ++ m) ++ r) = none := by
  induction cs generalizing p with
  | nil => exact absurd h (by simp [findLCL])
  | cons c cs ih =>
    unfold findLCL at h
    cases hm : matchLCL l1 ok l2 (c :: cs) with
    | some q =>
      rw [hm] at h
      obtain ⟨m0, rest0⟩ := q
      simp only [Option.some.injEq, Prod.mk.injEq] at h
      obtain ⟨hp, hmm, hr⟩ := h
      subst hp
      subst hmm
      subst hr
      obtain ⟨v, hv, hm0, hvne, hvok, hcs⟩ := matchLCL_eq_some l1 ok l2 _ _ _ hm
      have hsuffix : m0 ++ rest0 = c :: cs := by
        rw [hm0, hcs]
      refine ⟨?_, ?_, ?_⟩
      · simp only [List.nil_append]
        exact hsuffix.symm
      · rw [hsuffix]
        exact hm
      · intro j hj
        exact absurd hj (by simp)
    | none =>
      rw [hm] at h
      cases hf : findLCL l1 ok l2 cs with
      | none => rw [hf] at h; exact absurd h (by simp)
      | some q =>
        rw [hf] at h
        obtain ⟨p', m', r'⟩ := q
        simp only [Option.map_some, Option.map_some', Option.some.injEq,
          Prod.mk.injEq] at h
        obtain ⟨hp, hmm, hr⟩ := h
        subst hmm
        subst hr
        obtain ⟨hcs, hmatch, hmin⟩ := ih p' hf
        subst hp
        refine ⟨by simp [hcs, List.append_assoc], hmatch, ?_⟩
        intro j hj
        cases j with
        | zero =>
          simp only [List.drop_zero]
          have : ((c :: p') ++ m') ++ r' = c :: cs := by
            simp [hcs, List.append_assoc]
          rw [this]
          exact hm
        | succ j' =>
          simp only [List.drop_succ_cons]
          exact hmin j' (by simpa using hj)

/-- C10 (confirmed).  Each of the six manifest substitutions touches at
most the leftmost match of its key-quote pattern: either the pattern has
no match and the text is unchanged, or the text splits as
`p ++ match ++ r` with no match starting inside `p`, and the result is
`p ++ replacement ++ r` — every character outside the replaced span is
preserved. -/
theorem C10_manifest_frame (k : List Char) (v : List Char) (t : List Char)
    (hk : k ∈ manifestKeys) :
    (replaceKey k v t = t ∧
      findLCL (keyLit k) (fun c => c ≠ '"') ['"'] t = none) ∨
    (∃ p val r, t = (p ++ (keyLit k ++ val ++ ['"'])) ++ r ∧ val ≠ [] ∧
      (∀ c ∈ val, c ≠ '"') ∧
      replaceKey k v t =
        (p ++ expandRepl (keyLit k ++ val ++ ['"']) p r []
          (keyLit k ++ v ++ ['"'])) ++ r ∧
      (∀ j < p.length, matchLCL (keyLit k) (fun c => c ≠ '"') ['"']
        ((p.drop j ++ (keyLit k ++ val ++ ['"'])) ++ r) = none)) := by
  cases hf : findLCL (keyLit k) (fun c => c ≠ '"') ['"'] t with
  | none =>
    left
    constructor
    · unfold replaceKey replaceLCL
      rw [hf]
    · rfl
  | some q =>
    right
    obtain ⟨p, m, r⟩ := q
    obtain ⟨hcs, hmatch, hmin⟩ := findLCL_eq_some _ _ _ _ _ _ _ hf
    obtain ⟨val, hvdef, hmval, hvne, hvok, _⟩ :=
      matchLCL_eq_some _ _ _ _ _ _ hmatch
    have hok : ∀ c ∈ val, c ≠ '"' := by
      intro c hc
      have := hvok c hc
      simpa using this
    refine ⟨p, val, r, ?_, hvne, hok, ?_, ?_⟩
    · rw [hcs, hmval]
    · unfold replaceKey replaceLCL
      rw [hf, ← hmval]
    · intro j hj
      have := hmin j hj
      rw [hmval] at this
      simpa [List.append_assoc] using this

/-- C10 witness: a concrete manifest where the name substitution splits
the text around the single match, with nothing before it. -/
theorem C10_manifest_frame_witness :
    (replaceKey ['n','a','m','e'] ['P'] "x \"name\": \"old\" y".data =
        "x \"name\": \"old\" y".data ∧
      findLCL (keyLit ['n','a','m','e']) (fun c => c ≠ '"') ['"']
        "x \"name\": \"old\" y".data = none) ∨
    (∃ p val r, "x \"name\": \"old\" y".data =
        (p ++ (keyLit ['n','a','m','e'] ++ val ++ ['"'])) ++ r ∧ val ≠ [] ∧
      (∀ c ∈ val, c ≠ '"') ∧
      replaceKey ['n','a','m','e'] ['P'] "x \"name\": \"old\" y".data =
        (p ++ expandRepl (keyLit ['n','a','m','e'] ++ val ++ ['"']) p r []
          (keyLit ['n','a','m','e'] ++ ['P'] ++ ['"'])) ++ r ∧
      (∀ j < p.length, matchLCL (keyLit ['n','a','m','e'])
        (fun c => c ≠ '"') ['"']
        ((p.drop j ++ (keyLit ['n','a','m','e'] ++ val ++ ['"'])) ++ r) =
          none)) :=
  C10_manifest_frame ['n','a','m','e'] ['P'] "x \"name\": \"old\" y".data
    (by decide)

theorem expandRepl_append_no_dollar (matched pre post : List Char)
    (groups : List (List Char)) (xs tl : List Char)
    (h : ∀ c ∈ xs, c ≠ '$') :
    expandRepl matched pre post groups (xs ++ tl) =
      xs ++ expandRepl matched pre post groups tl := by
  induction xs with
  | nil => simp
  | cons c rest ih =>
    have hc : c ≠ '$' := h c (by simp)
    rw [List.cons_append]
    conv_lhs => unfold expandRepl
    rw [if_neg hc]
    rw [ih (fun x hx => h x (by simp [hx]))]
    simp

theorem expandRepl_dollar_one (m p r : List Char) (g1 g2 : List Char)
    (len : Nat) :
    expandRepl m p r [g1, g2] ('$' :: '1' :: List.replicate len '=') =
      g1 ++ List.replicate len '=' := by
  have hg : groupRef [g1, g2] ('1'.toNat - 48) = some g1 := by
    have h1 : ('1'.toNat - 48) = 1 := by decide
    rw [h1]
    unfold groupRef
    rw [if_pos (by refine ⟨le_refl 1, ?_⟩; simp)]
    rfl
  cases len with
  | zero =>
    show expandRepl m p r [g1, g2] ('$' :: '1' :: []) = g1 ++ []
    simp only [expandRepl]
    rw [if_pos trivial]
    rw [if_neg (show ('1' : Char) ≠ '$' by decide),
      if_neg (show ('1' : Char) ≠ '&' by decide),
      if_neg (show ('1' : Char) ≠ '\'' by decide),
      if_neg (show ¬('1' : Char).toNat = 96 by decide),
      if_pos (show ('1' : Char).isDigit = true by decide), hg]
    simp
  | succ k =>
    show expandRepl m p r [g1, g2] ('$' :: '1' :: '=' :: List.replicate k '=') =
      g1 ++ '=' :: List.replicate k '='
    simp only [expandRepl]
    rw [if_pos trivial]
    rw [if_neg (show ('1' : Char) ≠ '$' by decide),
      if_neg (show ('1' : Char) ≠ '&' by decide),
      if_neg (show ('1' : Char) ≠ '\'' by decide),
      if_neg (show ¬('1' : Char).toNat = 96 by decide),
      if_pos (show ('1' : Char).isDigit = true by decide)]
    rw [if_neg (show ¬(('=' : Char).isDigit = true ∧
      (groupRef [g1, g2] (10 * ('1'.toNat - 48) + ('='.toNat - 48))).isSome = true)
      from fun hand => absurd hand.1 (by decide))]
    rw [hg]
    rw [if_pos (show (some g1).isSome = true from rfl)]
    have hrep : expandRepl m p r [g1, g2] ('=' :: List.replicate k '=') =
        '=' :: List.replicate k '=' := by
      rw [show ('=' :: List.replicate k '=' : List Char) =
        List.replicate (k + 1) '=' from rfl]
      refine expandRepl_no_dollar m p r [g1, g2] _ ?_
      intro c hc
      have h2 : c = '=' := List.eq_of_mem_replicate hc
      simp [h2]
    rw [hrep]
    simp

theorem findTitle_cons_of_match (c : Char) (cs : List Char)
    (m : List Char × List Char × List Char × List Char)
    (h : matchTitleAt (c :: cs) = some m) :
    findTitle (c :: cs) = some ([], m) := by
  unfold findTitle
  rw [h]

/-- C6 (confirmed).  For a README beginning with a title line (no line
terminators) underlined by a run of `n ≥ 1` equals-signs, the title
rewrite replaces the title line with the app name and the underline with a
run of equals-signs whose length is the app name's length, leaving the
remainder unchanged. -/
theorem C6_readmeTitle (appName title rest : List Char) (n : Nat)
    (htitle : ∀ c ∈ title, isLineTerm c = false)
    (hn : 1 ≤ n)
    (hrest : ∀ c, rest.head? = some c → c ≠ '=')
    (hdollar : ∀ c ∈ appName, c ≠ '$') :
    replaceTitle appName (title ++ '\n' :: (List.replicate n '=' ++ rest)) =
      appName ++ '\n' :: (List.replicate appName.length '=' ++ rest) := by
  obtain ⟨k, rfl⟩ : ∃ k, n = k + 1 := ⟨n - 1, by omega⟩
  have htw : (title ++ '\n' :: (List.replicate (k + 1) '=' ++ rest)).takeWhile
      (fun c => !isLineTerm c) = title := by
    refine takeWhile_all_append _ title _ '\n' ?_ (by decide)
    intro c hc
    simp [htitle c hc]
  have hdrop : (title ++ '\n' :: (List.replicate (k + 1) '=' ++ rest)).drop
      title.length = '\n' :: (List.replicate (k + 1) '=' ++ rest) :=
    List.drop_left title _
  have heq : (List.replicate (k + 1) '=' ++ rest).takeWhile
      (fun c => c = '=') = List.replicate (k + 1) '=' := by
    cases hr : rest with
    | nil =>
      rw [List.append_nil]
      exact List.takeWhile_eq_self_iff.mpr
        (fun c hc => by simp [List.eq_of_mem_replicate hc])
    | cons rh rt =>
      refine takeWhile_all_append _ _ _ rh
        (fun c hc => by simp [List.eq_of_mem_replicate hc]) ?_
      have := hrest rh (by rw [hr]; rfl)
      simp [this]
  have hcheck : checkWsEq ('\n' :: (List.replicate (k + 1) '=' ++ rest)) =
      some (['\n'], List.replicate (k + 1) '=', rest) := by
    unfold checkWsEq
    have hw : ('\n' :: (List.replicate (k + 1) '=' ++ rest)).takeWhile isJsWs =
        ['\n'] := by
      rw [List.takeWhile_cons]
      rw [if_pos (by decide)]
      rw [List.replicate_succ, List.cons_append, List.takeWhile_cons]
      rw [if_neg (by decide)]
    rw [hw]
    simp only [List.isEmpty_cons, List.length_cons, List.length_nil,
      List.drop_succ_cons, List.drop_zero]
    rw [heq]
    have hne : (List.replicate (k + 1) '=').isEmpty = false := by
      simp [List.replicate_succ]
    rw [hne]
    simp only [Bool.false_eq_true, if_false, List.length_replicate]
    rw [List.drop_left']
    all_goals simp
  have hshrink : titleShrink title.reverse
      ('\n' :: (List.replicate (k + 1) '=' ++ rest)) =
      some (title, ['\n'], List.replicate (k + 1) '=', rest) := by
    cases htr : title.reverse with
    | nil =>
      have : title = [] := by simpa using congrArg List.reverse htr
      unfold titleShrink
      rw [hcheck, this]
    | cons c aRev2 =>
      unfold titleShrink
      rw [hcheck]
      have : (c :: aRev2).reverse = title := by
        rw [← htr, List.reverse_reverse]
      rw [this]
  have hmatch : matchTitleAt
      (title ++ '\n' :: (List.replicate (k + 1) '=' ++ rest)) =
      some (title, ['\n'], List.replicate (k + 1) '=', rest) := by
    simp only [matchTitleAt]
    rw [htw, hdrop, hshrink]
  have hfind : findTitle
      (title ++ '\n' :: (List.replicate (k + 1) '=' ++ rest)) =
      some ([], (title, ['\n'], List.replicate (k + 1) '=', rest)) := by
    cases ht : title with
    | nil =>
      rw [ht] at hmatch
      simp only [List.nil_append] at hmatch ⊢
      exact findTitle_cons_of_match _ _ _ hmatch
    | cons t ts =>
      rw [ht] at hmatch
      simp only [List.cons_append] at hmatch ⊢
      exact findTitle_cons_of_match _ _ _ hmatch
  unfold replaceTitle
  rw [hfind]
  show ([] : List Char) ++ expandRepl (title ++ ['\n'] ++ List.replicate (k + 1) '=')
      [] rest [[(['\n'] : List Char).getLastD ' '], List.replicate (k + 1) '=']
      (appName ++ '$' :: '1' :: List.replicate appName.length '=') ++ rest =
    appName ++ '\n' :: (List.replicate appName.length '=' ++ rest)
  rw [expandRepl_append_no_dollar _ _ _ _ appName _ hdollar]
  rw [show (['\n'] : List Char).getLastD ' ' = '\n' from rfl]
  rw [expandRepl_dollar_one]
  simp [List.append_assoc]

/-- C6 witness: the spec scenario — title `Front-End Starter` underlined
with 17 equals-signs, app name `Acme Tool` — yields `Acme Tool` underlined
with exactly 9 equals-signs. -/
theorem C6_readmeTitle_witness :
    replaceTitle "Acme Tool".data
      ("Front-End Starter".data ++ '\n' ::
        (List.replicate 17 '=' ++ "\n\nrest".data)) =
      "Acme Tool".data ++ '\n' ::
        (List.replicate "Acme Tool".data.length '=' ++ "\n\nrest".data) :=
  C6_readmeTitle "Acme Tool".data "Front-End Starter".data "\n\nrest".data 17
    (by decide) (by decide) (by decide) (by decide)

theorem containsSub_of_isPrefixOf_drop (pat l : List Char) (i : Nat)
    (h : pat.isPrefixOf (l.drop i) = true) : containsSub pat l = true := by
  induction l generalizing i with
  | nil =>
    rw [List.drop_nil] at h
    simpa [containsSub] using h
  | cons c cs ih =>
    cases i with
    | zero =>
      rw [List.drop_zero] at h
      simp [containsSub, h]
    | succ i' =>
      rw [List.drop_succ_cons] at h
      simp [containsSub, ih i' h]

theorem findLastSplit_none (pat cs : List Char)
    (h : ∀ j, ¬ pat.isPrefixOf (cs.drop j) = true) :
    findLastSplit pat cs = none := by
  induction cs with
  | nil =>
    unfold findLastSplit
    rw [if_neg (by simpa using h 0)]
  | cons c cs ih =>
    have hrec := ih (fun j => by simpa using h (j + 1))
    unfold findLastSplit
    rw [hrec]
    simp only [Option.isSome_none, Bool.false_eq_true, if_false]
    rw [if_neg (by simpa using h 0)]

theorem findLastSplit_eq (pat mid tail : List Char) (hpat : pat ≠ [])
    (hself : ∀ j, 1 ≤ j → ¬ pat.isPrefixOf ((pat ++ tail).drop j) = true) :
    findLastSplit pat (mid ++ (pat ++ tail)) = some (mid, tail) := by
  induction mid with
  | nil =>
    rw [List.nil_append]
    obtain ⟨p0, ps, rfl⟩ : ∃ p0 ps, pat = p0 :: ps := by
      cases pat with
      | nil => exact absurd rfl hpat
      | cons p0 ps => exact ⟨p0, ps, rfl⟩
    have hnone : findLastSplit (p0 :: ps) (ps ++ tail) = none := by
      refine findLastSplit_none _ _ (fun j => ?_)
      have := hself (j + 1) (by omega)
      rw [show ((p0 :: ps) ++ tail).drop (j + 1) = (ps ++ tail).drop j from by
        simp] at this
      exact this
    rw [show (p0 :: ps) ++ tail = p0 :: (ps ++ tail) from rfl]
    unfold findLastSplit
    rw [hnone]
    simp only [Option.isSome_none, Bool.false_eq_true, if_false]
    rw [if_pos (by
      refine List.isPrefixOf_iff_prefix.mpr ?_
      exact ⟨tail, by simp⟩)]
    simp
  | cons c mid ih =>
    rw [List.cons_append]
    unfold findLastSplit
    rw [ih]
    simp

theorem gapAttempt_some (pat candRev tail b a : List Char)
    (h : findLastSplit pat tail = some (b, a)) (hb : b.isEmpty = false) :
    gapAttempt pat candRev tail = some (candRev.reverse, b, a) := by
  unfold gapAttempt
  simp only [h, hb, Bool.false_eq_true, if_false]

theorem gapLoop_first (pat candRev tail b a : List Char)
    (h : findLastSplit pat tail = some (b, a)) (hb : b.isEmpty = false) :
    gapLoop pat candRev tail = some (candRev.reverse, b, a) := by
  have hat := gapAttempt_some pat candRev tail b a h hb
  cases candRev with
  | nil => exact hat
  | cons c rest =>
    cases rest with
    | nil => exact hat
    | cons c2 r2 =>
      unfold gapLoop
      rw [hat]

theorem deployment_no_self_overlap (tail : List Char)
    (htail : containsSub "Deployment".data tail = false) :
    ∀ j, 1 ≤ j →
      ¬ "Deployment".data.isPrefixOf
        (("Deployment".data ++ tail).drop j) = true := by
  intro j h1j hcontra
  by_cases hc10 : j < 10
  · have hexp : ("Deployment".data ++ tail) =
        'D' :: 'e' :: 'p' :: 'l' :: 'o' :: 'y' :: 'm' :: 'e' :: 'n' :: 't' ::
          tail := rfl
    rw [hexp] at hcontra
    interval_cases j <;> simp [List.isPrefixOf] at hcontra
  · have hper : ("Deployment".data ++ tail).drop j = tail.drop (j - 10) := by
      have hj : j = "Deployment".data.length + (j - 10) := by
        rw [show ("Deployment".data).length = 10 from rfl]
        omega
      conv_lhs => rw [hj]
      rw [List.drop_append]
    rw [hper] at hcontra
    have hcs := containsSub_of_isPrefixOf_drop _ _ _ hcontra
    rw [htail] at hcs
    exact Bool.false_ne_true hcs

/-- C7 (corrected).  The usage collapse is greedy: it removes everything
from the `Usage` header up to (but not including) the *last* following
occurrence of `Deployment`, replacing the whole stretch by the single word
`Deployment`; only the content after that last occurrence is preserved.
(When `Deployment` occurs exactly once after the section, this coincides
with the immediately-following occurrence.) -/
theorem C7_usageCollapse (ws mid tail : List Char) (dn : Nat)
    (hwsne : ws ≠ []) (hws : ∀ c ∈ ws, isJsWs c = true)
    (hdn : 1 ≤ dn)
    (hmid : ∃ mh mt, mid = mh :: mt ∧ mh ≠ '-')
    (htail : containsSub "Deployment".data tail = false) :
    replaceUsage ("Usage".data ++ (ws ++ (List.replicate dn '-' ++
        (mid ++ ("Deployment".data ++ tail))))) =
      "Deployment".data ++ tail := by
  obtain ⟨mh, mt, rfl, hmh⟩ := hmid
  obtain ⟨k, rfl⟩ : ∃ k, dn = k + 1 := ⟨dn - 1, by omega⟩
  have hw : (ws ++ (List.replicate (k + 1) '-' ++
      ((mh :: mt) ++ ("Deployment".data ++ tail)))).takeWhile isJsWs = ws := by
    rw [List.replicate_succ, List.cons_append, List.cons_append]
    exact takeWhile_all_append _ ws _ '-' hws (by decide)
  have hd : ((List.replicate (k + 1) '-' ++
      ((mh :: mt) ++ ("Deployment".data ++ tail)))).takeWhile
        (fun c => c = '-') = List.replicate (k + 1) '-' := by
    refine takeWhile_all_append _ _ _ mh
      (fun c hc => by simp [List.eq_of_mem_replicate hc]) ?_
    simp [hmh]
  have hlast : findLastSplit "Deployment".data
      ((mh :: mt) ++ ("Deployment".data ++ tail)) =
      some (mh :: mt, tail) :=
    findLastSplit_eq _ _ _ (by decide) (deployment_no_self_overlap tail htail)
  have hgap : gapLoop "Deployment".data (List.replicate (k + 1) '-').reverse
      ((mh :: mt) ++ ("Deployment".data ++ tail)) =
      some (List.replicate (k + 1) '-', mh :: mt, tail) := by
    have := gapLoop_first "Deployment".data
      (List.replicate (k + 1) '-').reverse _ (mh :: mt) tail hlast (by simp)
    rw [List.reverse_reverse] at this
    exact this
  have hmatch : matchUsageAt ("Usage".data ++ (ws ++ (List.replicate (k + 1) '-' ++
      ((mh :: mt) ++ ("Deployment".data ++ tail))))) =
      some ("Usage".data ++ ws ++ List.replicate (k + 1) '-' ++
        (mh :: mt) ++ "Deployment".data, tail) := by
    simp only [matchUsageAt]
    rw [if_pos (List.isPrefixOf_iff_prefix.mpr ⟨_, rfl⟩)]
    rw [List.drop_left, hw]
    rw [if_neg (by simp [List.isEmpty_iff, hwsne])]
    rw [List.drop_left, hd]
    rw [if_neg (by simp [List.isEmpty_iff, List.replicate_succ])]
    rw [List.drop_left]
    simp only [hgap]
  have hfind : findUsage ("Usage".data ++ (ws ++ (List.replicate (k + 1) '-' ++
      ((mh :: mt) ++ ("Deployment".data ++ tail))))) =
      some ([], ("Usage".data ++ ws ++ List.replicate (k + 1) '-' ++
        (mh :: mt) ++ "Deployment".data, tail)) := by
    rw [show ("Usage".data ++ (ws ++ (List.replicate (k + 1) '-' ++
      ((mh :: mt) ++ ("Deployment".data ++ tail))))) =
      'U' :: ("sage".data ++ (ws ++ (List.replicate (k + 1) '-' ++
        ((mh :: mt) ++ ("Deployment".data ++ tail))))) from rfl] at hmatch ⊢
    unfold findUsage
    rw [hmatch]
  unfold replaceUsage
  rw [hfind]
  show ([] : List Char) ++ expandRepl _ [] tail [] "Deployment".data ++ tail =
    "Deployment".data ++ tail
  rw [expandRepl_no_dollar _ _ _ _ _ (by decide)]
  simp

/-- C7 witness: a Usage section whose only following `Deployment` is the
immediately following one collapses to just `Deployment`. -/
theorem C7_usageCollapse_witness :
    replaceUsage ("Usage".data ++ (['\n'] ++ (List.replicate 5 '-' ++
        ("\nstuff\n".data ++ ("Deployment".data ++ "\nB".data))))) =
      "Deployment".data ++ "\nB".data :=
  C7_usageCollapse ['\n'] "\nstuff\n".data "\nB".data 5 (by decide)
    (by decide) (by decide) ⟨'\n', "stuff\n".data, rfl, by decide⟩ (by decide)

/-- C7 counterexample: with a second `Deployment` later in the file, the
greedy match swallows the first `Deployment` section too, so the content
after the *first* following `Deployment` is not preserved as claimed. -/
theorem C7_counterexample :
    replaceUsage "Usage\n-----\nstuff\nDeployment\nA\nDeployment\nB".data =
      "Deployment\nB".data ∧
    replaceUsage "Usage\n-----\nstuff\nDeployment\nA\nDeployment\nB".data ≠
      "Deployment\nA\nDeployment\nB".data := by
  constructor
  · decide
  · decide

theorem removePath_not_pref (fs : FS) (p q : List String)
    (h : p.isPrefixOf q = false) : removePath fs p q = fs q := by
  unfold removePath
  rw [h]
  simp

theorem removePath_self_prefix (fs : FS) (p q : List String)
    (h : p.isPrefixOf q = true) : removePath fs p q = none := by
  unfold removePath
  rw [h]
  simp

theorem writePath_self (fs : FS) (p : List String) (v : String) :
    writePath fs p v p = some v := by
  unfold writePath
  simp

theorem writePath_ne (fs : FS) (p q : List String) (v : String) (h : q ≠ p) :
    writePath fs p v q = fs q := by
  unfold writePath
  rw [if_neg h]

theorem clonePopulate_pkg (tpl : List String → Option String) (pkg : String)
    (fs : FS) (rest : List String) :
    clonePopulate tpl pkg fs (pkg :: rest) = tpl rest := by
  unfold clonePopulate
  simp

theorem pair_not_pref (a x y : String) (hxy : x ≠ y) :
    ([a, x].isPrefixOf [a, y]) = false := by
  show ((a == a) && ((x == y) && (([] : List String).isPrefixOf []))) = false
  simp [hxy]

theorem pair_not_pref_four (a x y z w : String) (hxy : x ≠ y) :
    ([a, x].isPrefixOf [a, y, z, w]) = false := by
  show ((a == a) && ((x == y) && (([] : List String).isPrefixOf [z, w]))) = false
  simp [hxy]

theorem stepEdit_some (st : RunState) (msg : String) (path : List String)
    (f : String → String) (c : String) (h : st.fs path = some c) :
    stepEdit st msg path f =
      (⟨writePath st.fs path (f c),
        (st.trace ++ [Event.info msg]) ++ [Event.wrote path (f c)]⟩, true) := by
  unfold stepEdit
  simp only [h]

theorem stepEdit_none (st : RunState) (msg : String) (path : List String)
    (f : String → String) (h : st.fs path = none) :
    stepEdit st msg path f =
      (⟨st.fs, st.trace ++ [Event.info msg]⟩, false) := by
  unfold stepEdit
  simp only [h]

theorem andThen_true (st : RunState) (f : RunState → RunState × Bool) :
    andThen (st, true) f = f st := by
  unfold andThen
  simp

theorem andThen_false (st : RunState) (f : RunState → RunState × Bool) :
    andThen (st, false) f = (st, false) := by
  unfold andThen
  simp

/-- C9 (corrected).  `exec` resolves on the `close` event and never
inspects the exit code, so a failing subprocess does not terminate the
run: after a failed clone the subsequent removal steps still execute.
The run only dies later, at the first file read (the clone produced no
files), consistent with fire-and-forget subprocess sequencing. -/
theorem C9_exec_ignores_failure (env : Env) (p : Params)
    (hclone : env.exitCode "git" ["clone", starterURL, p.packageName] ≠ 0)
    (hfs : env.fs0 [p.packageName, "package.json"] = none) :
    (run env p).2 = false ∧
    (∃ c, Event.execCmd "rm" ["-rf", joinPath [p.packageName, ".git"]] none c ∈
      (run env p).1.trace) ∧
    (∃ c, Event.execCmd "rm" ["-rf", joinPath [p.packageName, ".github"]] none c ∈
      (run env p).1.trace) ∧
    (∃ c, Event.execCmd "rm" [joinPath [p.packageName, "package-lock.json"]]
      none c ∈ (run env p).1.trace) := by
  have hlook : (removePath (removePath (removePath env.fs0
      [p.packageName, ".git"]) [p.packageName, ".github"])
      [p.packageName, "package-lock.json"]) [p.packageName, "package.json"] =
      none := by
    rw [removePath_not_pref _ _ _ (pair_not_pref _ _ _ (by decide)),
      removePath_not_pref _ _ _ (pair_not_pref _ _ _ (by decide)),
      removePath_not_pref _ _ _ (pair_not_pref _ _ _ (by decide)), hfs]
  have hrun : run env p =
      (⟨removePath (removePath (removePath env.fs0 [p.packageName, ".git"])
          [p.packageName, ".github"]) [p.packageName, "package-lock.json"],
        [Event.info "----- Front-End Generator ------",
         Event.info ("Cloning into " ++ p.packageName ++ "..."),
         Event.execCmd "git" ["clone", starterURL, p.packageName] none
           (env.exitCode "git" ["clone", starterURL, p.packageName]),
         Event.info "Removing existing git repo info...",
         Event.execCmd "rm" ["-rf", joinPath [p.packageName, ".git"]] none
           (env.exitCode "rm" ["-rf", joinPath [p.packageName, ".git"]]),
         Event.info "Removing CI directory...",
         Event.execCmd "rm" ["-rf", joinPath [p.packageName, ".github"]] none
           (env.exitCode "rm" ["-rf", joinPath [p.packageName, ".github"]]),
         Event.info "Removing package-lock.json...",
         Event.execCmd "rm" [joinPath [p.packageName, "package-lock.json"]] none
           (env.exitCode "rm" [joinPath [p.packageName, "package-lock.json"]])]
         ++ [Event.info "Updating package.json..."]⟩, false) := by
    simp only [run]
    rw [if_neg hclone]
    rw [stepEdit_none _ _ _ _ hlook]
    rw [andThen_false]
  rw [hrun]
  refine ⟨rfl,
    ⟨env.exitCode "rm" ["-rf", joinPath [p.packageName, ".git"]], by simp⟩,
    ⟨env.exitCode "rm" ["-rf", joinPath [p.packageName, ".github"]], by simp⟩,
    ⟨env.exitCode "rm" [joinPath [p.packageName, "package-lock.json"]],
      by simp⟩⟩

/-- C9 counterexample: with a clone exiting 1, the next pipeline step (the
`.git` removal) still executes — the claim that no subsequent step runs
after a failed subprocess is false. -/
theorem C9_counterexample :
    Event.execCmd "git" ["clone", starterURL, "pkg"] none 1 ∈
      (run ⟨⟨200, [], fun _ => none⟩, fun _ => none, fun _ => none,
        fun c args => if c = "git" ∧ args.head? = some "clone" then 1 else 0,
        2025⟩ ⟨"A", "pkg", "au", "d", "1.0.0", "MIT", "u"⟩).1.trace ∧
    Event.execCmd "rm" ["-rf", "pkg/.git"] none 0 ∈
      (run ⟨⟨200, [], fun _ => none⟩, fun _ => none, fun _ => none,
        fun c args => if c = "git" ∧ args.head? = some "clone" then 1 else 0,
        2025⟩ ⟨"A", "pkg", "au", "d", "1.0.0", "MIT", "u"⟩).1.trace := by
  constructor
  · decide
  · decide

/-- C9 witness: the amended theorem applied to a concrete environment with
a failing clone and no pre-existing files. -/
theorem C9_exec_ignores_failure_witness :
    (run ⟨⟨200, [], fun _ => none⟩, fun _ => none, fun _ => none,
        fun c args => if c = "git" ∧ args.head? = some "clone" then 1 else 0,
        2025⟩ ⟨"A", "pkg", "au", "d", "1.0.0", "MIT", "u"⟩).2 = false ∧
    (∃ c, Event.execCmd "rm" ["-rf", joinPath ["pkg", ".git"]] none c ∈
      (run ⟨⟨200, [], fun _ => none⟩, fun _ => none, fun _ => none,
        fun c args => if c = "git" ∧ args.head? = some "clone" then 1 else 0,
        2025⟩ ⟨"A", "pkg", "au", "d", "1.0.0", "MIT", "u"⟩).1.trace) ∧
    (∃ c, Event.execCmd "rm" ["-rf", joinPath ["pkg", ".github"]] none c ∈
      (run ⟨⟨200, [], fun _ => none⟩, fun _ => none, fun _ => none,
        fun c args => if c = "git" ∧ args.head? = some "clone" then 1 else 0,
        2025⟩ ⟨"A", "pkg", "au", "d", "1.0.0", "MIT", "u"⟩).1.trace) ∧
    (∃ c, Event.execCmd "rm" [joinPath ["pkg", "package-lock.json"]] none c ∈
      (run ⟨⟨200, [], fun _ => none⟩, fun _ => none, fun _ => none,
        fun c args => if c = "git" ∧ args.head? = some "clone" then 1 else 0,
        2025⟩ ⟨"A", "pkg", "au", "d", "1.0.0", "MIT", "u"⟩).1.trace) :=
  C9_exec_ignores_failure
    ⟨⟨200, [], fun _ => none⟩, fun _ => none, fun _ => none,
      fun c args => if c = "git" ∧ args.head? = some "clone" then 1 else 0,
      2025⟩ ⟨"A", "pkg", "au", "d", "1.0.0", "MIT", "u"⟩ (by decide) rfl

theorem stepEdit_some' (fs : FS) (tr : List Event) (msg : String)
    (path : List String) (f : String → String) (c : String)
    (h : fs path = some c) :
    stepEdit ⟨fs, tr⟩ msg path f =
      (⟨writePath fs path (f c),
        (tr ++ [Event.info msg]) ++ [Event.wrote path (f c)]⟩, true) := by
  unfold stepEdit
  simp only [h]

theorem licenseStep_error (env : Env) (p : Params) (st : RunState)
    (e : FetchErr) (h : fetchLicense env.registry p.license = .error e) :
    licenseStep env p st =
      ⟨removePath st.fs [p.packageName, "LICENSE"],
        (st.trace ++ [Event.info ("Attempting to fetch '" ++ p.license ++
            "' license...")]) ++
          [Event.warn "Skipping LICENSE creation...",
           Event.execCmd "rm" [joinPath [p.packageName, "LICENSE"]] none
             (env.exitCode "rm" [joinPath [p.packageName, "LICENSE"]])]⟩ := by
  unfold licenseStep licenseCatch
  simp only [h]

theorem finalSteps_fs (env : Env) (p : Params) (st : RunState) :
    (finalSteps env p st).fs = st.fs := by
  unfold finalSteps
  by_cases h : p.repoURL = "" <;> simp [h]

theorem finalSteps_trace_mono (env : Env) (p : Params) (st : RunState)
    (x : Event) (h : x ∈ st.trace) : x ∈ (finalSteps env p st).trace := by
  unfold finalSteps
  by_cases hu : p.repoURL = "" <;> simp [hu, h]

theorem finalSteps_init_mem (env : Env) (p : Params) (st : RunState) :
    Event.execCmd "git" ["init"] (some p.packageName)
      (env.exitCode "git" ["init"]) ∈ (finalSteps env p st).trace := by
  unfold finalSteps
  by_cases hu : p.repoURL = "" <;> simp [hu]

theorem finalSteps_npm_mem (env : Env) (p : Params) (st : RunState) :
    Event.execCmd "npm" ["install"] (some p.packageName)
      (env.exitCode "npm" ["install"]) ∈ (finalSteps env p st).trace := by
  unfold finalSteps
  by_cases hu : p.repoURL = "" <;> simp [hu]

theorem finalSteps_remote_mem (env : Env) (p : Params) (st : RunState)
    (hu : p.repoURL ≠ "") :
    Event.execCmd "git" ["remote", "add", "origin", p.repoURL]
      (some p.packageName)
      (env.exitCode "git" ["remote", "add", "origin", p.repoURL]) ∈
      (finalSteps env p st).trace := by
  unfold finalSteps
  simp [hu]

/-- C1 (confirmed).  When the clone succeeds and the template provides the
four rewritten files, any failure in the license-resolution chain (any
`FetchErr`: registry unreachable or non-200 status, unknown SPDX
identifier, failed detail fetch) leaves the run alive: a warning is
emitted, no LICENSE file exists in the output directory afterwards, and
the later steps — repository initialization, remote registration (or its
warned skip), dependency install — all still execute. -/
theorem C1_licenseFailureRecovery (env : Env) (p : Params) (e : FetchErr)
    (hclone : env.exitCode "git" ["clone", starterURL, p.packageName] = 0)
    (hpj : (env.template ["package.json"]).isSome = true)
    (hih : (env.template ["index.html"]).isSome = true)
    (hhv : (env.template ["src", "pages", "home.vue"]).isSome = true)
    (hrm : (env.template ["README.md"]).isSome = true)
    (hfetch : fetchLicense env.registry p.license = .error e) :
    (run env p).2 = true ∧
    (run env p).1.fs [p.packageName, "LICENSE"] = none ∧
    (∃ w, Event.warn w ∈ (run env p).1.trace) ∧
    Event.execCmd "git" ["init"] (some p.packageName)
      (env.exitCode "git" ["init"]) ∈ (run env p).1.trace ∧
    Event.execCmd "npm" ["install"] (some p.packageName)
      (env.exitCode "npm" ["install"]) ∈ (run env p).1.trace ∧
    (p.repoURL ≠ "" →
      Event.execCmd "git" ["remote", "add", "origin", p.repoURL]
        (some p.packageName)
        (env.exitCode "git" ["remote", "add", "origin", p.repoURL]) ∈
        (run env p).1.trace) := by
  obtain ⟨cpj, hcpj⟩ := Option.isSome_iff_exists.mp hpj
  obtain ⟨cih, hcih⟩ := Option.isSome_iff_exists.mp hih
  obtain ⟨chv, hchv⟩ := Option.isSome_iff_exists.mp hhv
  obtain ⟨crm, hcrm⟩ := Option.isSome_iff_exists.mp hrm
  set fs0' : FS := removePath (removePath (removePath
    (clonePopulate env.template p.packageName env.fs0)
    [p.packageName, ".git"]) [p.packageName, ".github"])
    [p.packageName, "package-lock.json"] with hfs0'
  have hbase : ∀ f : List String, f ≠ [] →
      ([".git"].isPrefixOf f) = false → ([".github"].isPrefixOf f) = false →
      (["package-lock.json"].isPrefixOf f) = false →
      fs0' (p.packageName :: f) = env.template f := by
    intro f hne h1 h2 h3
    rw [hfs0']
    rw [removePath_not_pref _ _ _ (by
      show ((p.packageName == p.packageName) &&
        (["package-lock.json"].isPrefixOf f)) = false
      simp [h3])]
    rw [removePath_not_pref _ _ _ (by
      show ((p.packageName == p.packageName) &&
        ([".github"].isPrefixOf f)) = false
      simp [h2])]
    rw [removePath_not_pref _ _ _ (by
      show ((p.packageName == p.packageName) &&
        ([".git"].isPrefixOf f)) = false
      simp [h1])]
    exact clonePopulate_pkg _ _ _ _
  have hlook1 : fs0' [p.packageName, "package.json"] = some cpj := by
    rw [hbase ["package.json"] (by simp) (by decide) (by decide) (by decide)]
    exact hcpj
  have hlook2 : writePath fs0' [p.packageName, "package.json"]
      (updatePackageJson p cpj) [p.packageName, "index.html"] = some cih := by
    rw [writePath_ne _ _ _ _ (by simp)]
    rw [hbase ["index.html"] (by simp) (by decide) (by decide) (by decide)]
    exact hcih
  have hlook3 : writePath (writePath fs0' [p.packageName, "package.json"]
      (updatePackageJson p cpj)) [p.packageName, "index.html"]
      (updateIndexHtml p.appName cih)
      [p.packageName, "src", "pages", "home.vue"] = some chv := by
    rw [writePath_ne _ _ _ _ (by simp), writePath_ne _ _ _ _ (by simp)]
    rw [hbase ["src", "pages", "home.vue"] (by simp) (by decide) (by decide)
      (by decide)]
    exact hchv
  have hlook4 : writePath (writePath (writePath fs0'
      [p.packageName, "package.json"] (updatePackageJson p cpj))
      [p.packageName, "index.html"] (updateIndexHtml p.appName cih))
      [p.packageName, "src", "pages", "home.vue"]
      (updateHomePage p.appName chv) [p.packageName, "README.md"] =
      some crm := by
    rw [writePath_ne _ _ _ _ (by simp), writePath_ne _ _ _ _ (by simp),
      writePath_ne _ _ _ _ (by simp)]
    rw [hbase ["README.md"] (by simp) (by decide) (by decide) (by decide)]
    exact hcrm
  set S4 : RunState :=
        ⟨writePath (writePath (writePath (writePath fs0'
            [p.packageName, "package.json"] (updatePackageJson p cpj))
            [p.packageName, "index.html"] (updateIndexHtml p.appName cih))
            [p.packageName, "src", "pages", "home.vue"]
            (updateHomePage p.appName chv))
            [p.packageName, "README.md"] (updateReadme p crm),
          (((((((([Event.info "----- Front-End Generator ------",
            Event.info ("Cloning into " ++ p.packageName ++ "..."),
            Event.execCmd "git" ["clone", starterURL, p.packageName] none
              (env.exitCode "git" ["clone", starterURL, p.packageName]),
            Event.info "Removing existing git repo info...",
            Event.execCmd "rm" ["-rf", joinPath [p.packageName, ".git"]] none
              (env.exitCode "rm" ["-rf", joinPath [p.packageName, ".git"]]),
            Event.info "Removing CI directory...",
            Event.execCmd "rm" ["-rf", joinPath [p.packageName, ".github"]] none
              (env.exitCode "rm" ["-rf", joinPath [p.packageName, ".github"]]),
            Event.info "Removing package-lock.json...",
            Event.execCmd "rm" [joinPath [p.packageName, "package-lock.json"]]
              none (env.exitCode "rm"
                [joinPath [p.packageName, "package-lock.json"]])]
            ++ [Event.info "Updating package.json..."])
            ++ [Event.wrote [p.packageName, "package.json"]
              (updatePackageJson p cpj)])
            ++ [Event.info "Updating index.html..."])
            ++ [Event.wrote [p.packageName, "index.html"]
              (updateIndexHtml p.appName cih)])
            ++ [Event.info "Updating home.vue..."])
            ++ [Event.wrote [p.packageName, "src", "pages", "home.vue"]
              (updateHomePage p.appName chv)])
            ++ [Event.info "Updating README.md..."])
            ++ [Event.wrote [p.packageName, "README.md"]
              (updateReadme p crm)])⟩ with hS4
  have hrun : run env p =
      (finalSteps env p (licenseStep env p S4), true) := by
    simp only [run]
    rw [if_pos hclone, ← hfs0']
    rw [stepEdit_some' _ _ _ _ _ _ hlook1, andThen_true]
    rw [stepEdit_some' _ _ _ _ _ _ hlook2, andThen_true]
    rw [stepEdit_some' _ _ _ _ _ _ hlook3, andThen_true]
    rw [stepEdit_some' _ _ _ _ _ _ hlook4, andThen_true]
  have hls := licenseStep_error env p S4 e hfetch
  rw [hrun]
  refine ⟨rfl, ?_, ?_, ?_, ?_, ?_⟩
  · show (finalSteps env p (licenseStep env p S4)).fs
      [p.packageName, "LICENSE"] = none
    rw [finalSteps_fs, hls]
    show removePath S4.fs [p.packageName, "LICENSE"]
      [p.packageName, "LICENSE"] = none
    refine removePath_self_prefix _ _ _ ?_
    exact List.isPrefixOf_iff_prefix.mpr (List.prefix_refl _)
  · refine ⟨"Skipping LICENSE creation...", ?_⟩
    refine finalSteps_trace_mono _ _ _ _ ?_
    rw [hls]
    simp
  · exact finalSteps_init_mem _ _ _
  · exact finalSteps_npm_mem _ _ _
  · intro hu
    exact finalSteps_remote_mem _ _ _ hu

/-- C1 witness: with the registry down, the concrete run finishes, leaves
no LICENSE, warns, and still initializes the repository, adds the remote
and installs dependencies. -/
theorem C1_licenseFailureRecovery_witness :
    (run witEnv witParams).2 = true ∧
    (run witEnv witParams).1.fs ["pkg", "LICENSE"] = none ∧
    (∃ w, Event.warn w ∈ (run witEnv witParams).1.trace) ∧
    Event.execCmd "git" ["init"] (some "pkg")
      (witEnv.exitCode "git" ["init"]) ∈ (run witEnv witParams).1.trace ∧
    Event.execCmd "npm" ["install"] (some "pkg")
      (witEnv.exitCode "npm" ["install"]) ∈ (run witEnv witParams).1.trace ∧
    ("u" ≠ "" →
      Event.execCmd "git" ["remote", "add", "origin", "u"] (some "pkg")
        (witEnv.exitCode "git" ["remote", "add", "origin", "u"]) ∈
        (run witEnv witParams).1.trace) :=
  C1_licenseFailureRecovery witEnv witParams FetchErr.registryUnavailable
    rfl rfl rfl rfl rfl rfl

theorem takeWhile_append_neg (p : Char → Bool) (y : Char) (hy : p y = false)
    (xs ys : List Char) :
    (xs ++ y :: ys).takeWhile p = xs.takeWhile p := by
  induction xs with
  | nil => simp [List.takeWhile_cons, hy]
  | cons x t ih =>
    by_cases hx : p x <;> simp [List.takeWhile_cons, hx, ih]

theorem matchLCL_isSome_iff (l1 : List Char) (ok : Char → Bool)
    (l2 cs : List Char) :
    (matchLCL l1 ok l2 cs).isSome = true ↔
      l1.isPrefixOf cs = true ∧
      (cs.drop l1.length).takeWhile ok ≠ [] ∧
      l2.isPrefixOf ((cs.drop l1.length).drop
        ((cs.drop l1.length).takeWhile ok).length) = true := by
  unfold matchLCL
  by_cases hp1 : l1.isPrefixOf cs = true
  · simp only [hp1, if_true]
    by_cases hve : ((cs.drop l1.length).takeWhile ok).isEmpty = true
    · simp only [hve, if_true]
      simp only [Option.isSome_none, Bool.false_eq_true, false_iff]
      intro h
      exact h.2.1 (List.isEmpty_iff.mp hve)
    · simp only [hve, Bool.false_eq_true, if_false]
      by_cases hp2 : l2.isPrefixOf ((cs.drop l1.length).drop
          ((cs.drop l1.length).takeWhile ok).length) = true
      · simp only [hp2, if_true, Option.isSome_some, true_iff]
        refine ⟨trivial, ?_, trivial⟩
        intro h
        rw [h] at hve
        simp at hve
      · simp only [hp2, Bool.false_eq_true, if_false]
        simp only [Option.isSome_none, Bool.false_eq_true, false_iff]
        intro h
        exact h.2.2
  · simp only [hp1, Bool.false_eq_true, if_false]
    simp only [Option.isSome_none, Bool.false_eq_true, false_iff]
    intro h
    exact h.1

theorem matchLCL_construct (l1 : List Char) (ok : Char → Bool) (d : Char)
    (l2' v r : List Char) (hv : v ≠ []) (hok : ∀ c ∈ v, ok c = true)
    (hd : ok d = false) :
    matchLCL l1 ok (d :: l2') ((l1 ++ v ++ (d :: l2')) ++ r) =
      some (l1 ++ v ++ (d :: l2'), r) := by
  have hshape : (l1 ++ v ++ (d :: l2')) ++ r =
      l1 ++ (v ++ d :: (l2' ++ r)) := by
    simp [List.append_assoc]
  rw [hshape]
  unfold matchLCL
  have hp1 : l1.isPrefixOf (l1 ++ (v ++ d :: (l2' ++ r))) = true :=
    List.isPrefixOf_iff_prefix.mpr (List.prefix_append _ _)
  rw [hp1]
  simp only [if_true]
  rw [List.drop_left]
  rw [takeWhile_all_append ok v (l2' ++ r) d hok hd]
  have hve : v.isEmpty = false := by
    cases v with
    | nil => exact absurd rfl hv
    | cons c cs => rfl
  rw [hve]
  simp only [Bool.false_eq_true, if_false]
  rw [List.drop_left]
  have hp2 : (d :: l2').isPrefixOf (d :: (l2' ++ r)) = true := by
    apply List.isPrefixOf_iff_prefix.mpr
    rw [List.cons_prefix_cons]
    exact ⟨rfl, List.prefix_append _ _⟩
  rw [hp2]
  simp only [if_true]
  have hdrop : (d :: (l2' ++ r)).drop (d :: l2').length = r := by
    simp only [List.length_cons, List.drop_succ_cons]
    exact List.drop_left _ _
  rw [hdrop]

theorem findLCL_construct (l1 : List Char) (ok : Char → Bool) (l2 : List Char)
    (p m r : List Char)
    (hm : matchLCL l1 ok l2 (m ++ r) = some (m, r))
    (hmin : ∀ j < p.length, matchLCL l1 ok l2 ((p.drop j ++ m) ++ r) = none) :
    findLCL l1 ok l2 ((p ++ m) ++ r) = some (p, m, r) := by
  induction p with
  | nil =>
    obtain ⟨w, -, hm0, hwne, -, -⟩ := matchLCL_eq_some l1 ok l2 _ _ _ hm
    have hmne : m ≠ [] := by
      rw [hm0]
      intro hc
      rw [List.append_eq_nil, List.append_eq_nil] at hc
      exact hwne hc.1.2
    obtain ⟨c, cs, rfl⟩ := List.exists_cons_of_ne_nil hmne
    simp only [List.nil_append]
    show findLCL l1 ok l2 (c :: (cs ++ r)) = some ([], c :: cs, r)
    unfold findLCL
    have hm' : matchLCL l1 ok l2 (c :: (cs ++ r)) = some (c :: cs, r) := hm
    rw [hm']
  | cons c p' ih =>
    have h0 := hmin 0 (by simp)
    simp only [List.drop_zero] at h0
    have hshape : ((c :: p') ++ m) ++ r = c :: ((p' ++ m) ++ r) := rfl
    rw [hshape] at h0 ⊢
    unfold findLCL
    rw [h0]
    have hih := ih (fun j hj => by
      have := hmin (j + 1) (by simpa using Nat.succ_lt_succ hj)
      simpa using this)
    rw [hih]
    rfl

theorem manifestKeys_facts : ∀ k ∈ manifestKeys,
    k ≠ [] ∧ (∀ c ∈ k, c ≠ '"') ∧ (∀ c ∈ keyLit k, c ≠ '$') ∧
    (∀ i, i < (keyLit k).length → 0 < i →
      ((keyLit k).drop i).isPrefixOf (keyLit k) = true →
      i = (keyLit k).length - 1) := by decide

theorem isPrefixOf_singleton_cons (d y : Char) (t : List Char) :
    [d].isPrefixOf (y :: t) = (d == y) := by
  simp [List.isPrefixOf]

theorem matchKey_shift (k s a b r : List Char) (hk : k ∈ manifestKeys)
    (hs : s ≠ [])
    (h : (matchLCL (keyLit k) (fun c => c ≠ '"') ['"']
      (s ++ (keyLit k ++ (b ++ '"' :: r)))).isSome = true) :
    (matchLCL (keyLit k) (fun c => c ≠ '"') ['"']
      (s ++ (keyLit k ++ (a ++ '"' :: r)))).isSome = true := by
  obtain ⟨hkne, hkq, -, hover⟩ := manifestKeys_facts k hk
  rw [matchLCL_isSome_iff] at h ⊢
  obtain ⟨hp, hw, hq⟩ := h
  by_cases hlen : (keyLit k).length ≤ s.length
  · have hXbp : keyLit k <+: s ++ (keyLit k ++ (b ++ '"' :: r)) :=
      List.isPrefixOf_iff_prefix.mp hp
    have hpre : keyLit k <+: s :=
      List.prefix_of_prefix_length_le hXbp (List.prefix_append _ _) hlen
    obtain ⟨s', hs'⟩ := hpre
    subst hs'
    have hdropL : ∀ z : List Char,
        ((keyLit k ++ s') ++ z).drop (keyLit k).length = s' ++ z := by
      intro z
      rw [List.append_assoc]
      exact List.drop_left _ _
    have hLcons : ∀ z : List Char,
        keyLit k ++ z = '"' :: ((k ++ ['"', ':', ' ', '"']) ++ z) :=
      fun z => rfl
    have htw : ∀ z : List Char,
        (s' ++ (keyLit k ++ z)).takeWhile (fun c : Char => (c ≠ '"' : Bool)) =
          s'.takeWhile (fun c : Char => (c ≠ '"' : Bool)) := by
      intro z
      rw [hLcons z]
      exact takeWhile_append_neg _ '"' (by decide) s' _
    rw [hdropL, htw] at hw hq
    refine ⟨?_, ?_, ?_⟩
    · apply List.isPrefixOf_iff_prefix.mpr
      rw [List.append_assoc]
      exact List.prefix_append _ _
    · rw [hdropL, htw]
      exact hw
    · rw [hdropL, htw]
      have hwle : ((s'.takeWhile (fun c : Char => (c ≠ '"' : Bool))).length ≤
          s'.length) := by
        have h3 := congrArg List.length
          (List.takeWhile_append_dropWhile (fun c : Char => (c ≠ '"' : Bool)) s')
        rw [List.length_append] at h3
        omega
      rw [List.drop_append_of_le_length hwle] at hq ⊢
      rw [drop_length_takeWhile] at hq ⊢
      cases hdw : s'.dropWhile (fun c : Char => (c ≠ '"' : Bool)) with
      | nil =>
        simp only [List.nil_append]
        rw [hLcons, isPrefixOf_singleton_cons]
        rfl
      | cons y0 ys =>
        rw [hdw] at hq
        rw [show (y0 :: ys) ++ (keyLit k ++ (b ++ '"' :: r)) =
          y0 :: (ys ++ (keyLit k ++ (b ++ '"' :: r))) from rfl,
          isPrefixOf_singleton_cons] at hq
        rw [show (y0 :: ys) ++ (keyLit k ++ (a ++ '"' :: r)) =
          y0 :: (ys ++ (keyLit k ++ (a ++ '"' :: r))) from rfl,
          isPrefixOf_singleton_cons]
        exact hq
  · have hslt : s.length < (keyLit k).length := Nat.lt_of_not_le hlen
    have hXb := List.isPrefixOf_iff_prefix.mp hp
    have hsL : s <+: keyLit k :=
      List.prefix_of_prefix_length_le (List.prefix_append _ _) hXb
        (Nat.le_of_lt hslt)
    obtain ⟨u, hu⟩ := hsL
    obtain ⟨w, hwX⟩ := hXb
    have huzb : u ++ w = keyLit k ++ (b ++ '"' :: r) := by
      have h1 : (s ++ u) ++ w = s ++ (keyLit k ++ (b ++ '"' :: r)) := by
        rw [hu]
        exact hwX
      rw [List.append_assoc] at h1
      exact List.append_cancel_left h1
    have hulen : u.length ≤ (keyLit k).length := by
      have h2 : s.length + u.length = (keyLit k).length := by
        rw [← hu, List.length_append]
      omega
    have huL : u <+: keyLit k := by
      rw [List.prefix_iff_eq_take]
      have h1 : u = (u ++ w).take u.length := by simp
      rw [huzb, List.take_append_of_le_length hulen] at h1
      exact h1
    have hsd : (keyLit k).drop s.length = u := by
      rw [← hu]
      exact List.drop_left _ _
    have hspos : 0 < s.length := List.length_pos.mpr hs
    have hi := hover s.length hslt hspos
      (by rw [hsd]; exact List.isPrefixOf_iff_prefix.mpr huL)
    have hul1 : u.length = 1 := by
      have h2 : s.length + u.length = (keyLit k).length := by
        rw [← hu, List.length_append]
      omega
    obtain ⟨c, rfl⟩ := List.length_eq_one.mp hul1
    have hc : c = '"' := by
      have h2 := huL
      rw [show keyLit k = '"' :: (k ++ ['"', ':', ' ', '"']) from rfl] at h2
      exact (List.cons_prefix_cons.mp h2).1
    subst hc
    have hXa : s ++ (keyLit k ++ (a ++ '"' :: r)) =
        keyLit k ++ ((k ++ ['"', ':', ' ', '"']) ++ (a ++ '"' :: r)) := by
      conv_rhs => rw [← hu]
      rw [show keyLit k ++ (a ++ '"' :: r) =
        '"' :: ((k ++ ['"', ':', ' ', '"']) ++ (a ++ '"' :: r)) from rfl]
      simp [List.append_assoc]
    rw [hXa]
    have hokk : ∀ c ∈ k, (fun c : Char => (c ≠ '"' : Bool)) c = true := by
      intro c hc
      exact decide_eq_true (hkq c hc)
    have htw2 : ((k ++ ['"', ':', ' ', '"']) ++
        (a ++ '"' :: r)).takeWhile (fun c : Char => (c ≠ '"' : Bool)) = k := by
      rw [List.append_assoc]
      rw [show ['"', ':', ' ', '"'] ++ (a ++ '"' :: r) =
        '"' :: ([':', ' ', '"'] ++ (a ++ '"' :: r)) from rfl]
      rw [takeWhile_append_neg _ '"' (by decide) k _]
      exact List.takeWhile_eq_self_iff.mpr hokk
    refine ⟨?_, ?_, ?_⟩
    · exact List.isPrefixOf_iff_prefix.mpr (List.prefix_append _ _)
    · rw [List.drop_left, htw2]
      exact hkne
    · rw [List.drop_left, htw2]
      rw [List.append_assoc, List.drop_left]
      rw [show ['"', ':', ' ', '"'] ++ (a ++ '"' :: r) =
        '"' :: ([':', ' ', '"'] ++ (a ++ '"' :: r)) from rfl]
      rw [isPrefixOf_singleton_cons]
      rfl

set_option maxHeartbeats 4000000 in
/-- C5 counterexample.  Applying the six-field `package.json` substitution
twice is not the same as applying it once: with `packageName = "P"` and
`version = "name"`, the first pass turns the value of `"version"` into the
text `name`, forming a fresh earlier `"name": "..."` occurrence that the
second pass's `"name"` substitution then rewrites. -/
theorem C5_counterexample :
    updatePackageJson ⟨"A", "P", "au", "d", "name", "MIT", "u"⟩
        (updatePackageJson ⟨"A", "P", "au", "d", "name", "MIT", "u"⟩
          "\"version\": \"old\": \"Q\" \"name\": \"x\"") ≠
      updatePackageJson ⟨"A", "P", "au", "d", "name", "MIT", "u"⟩
        "\"version\": \"old\": \"Q\" \"name\": \"x\"" := by
  decide

/-- C5 (amended).  Each single key substitution is idempotent: for every
targeted key, every text, and every replacement value that is nonempty and
free of double quotes and dollar signs, applying the substitution twice
yields the same text as applying it once. -/
theorem C5_manifest_key_idempotent (k v t : List Char)
    (hk : k ∈ manifestKeys) (hv : v ≠ []) (hq : ∀ c ∈ v, c ≠ '"')
    (hd : ∀ c ∈ v, c ≠ '$') :
    replaceKey k v (replaceKey k v t) = replaceKey k v t := by
  obtain ⟨-, -, hkd, -⟩ := manifestKeys_facts k hk
  have hnodollar : ∀ c ∈ keyLit k ++ v ++ ['"'], c ≠ '$' := by
    intro c hc
    rcases List.mem_append.mp hc with hc1 | hc2
    · rcases List.mem_append.mp hc1 with h1 | h2
      · exact hkd c h1
      · exact hd c h2
    · simp only [List.mem_singleton] at hc2
      subst hc2
      decide
  unfold replaceKey replaceLCL
  cases hf : findLCL (keyLit k) (fun c => c ≠ '"') ['"'] t with
  | none => simp only [hf]
  | some q =>
    obtain ⟨p, m, r⟩ := q
    obtain ⟨hcs, hmatch, hmin⟩ := findLCL_eq_some _ _ _ _ _ _ _ hf
    obtain ⟨val, -, hm0, hvne, hvok, -⟩ := matchLCL_eq_some _ _ _ _ _ _ hmatch
    simp only [hf]
    rw [expandRepl_no_dollar _ _ _ _ _ hnodollar]
    have hnew : findLCL (keyLit k) (fun c => c ≠ '"') ['"']
        ((p ++ (keyLit k ++ v ++ ['"'])) ++ r) =
        some (p, keyLit k ++ v ++ ['"'], r) := by
      apply findLCL_construct
      · exact matchLCL_construct (keyLit k) _ '"' [] v r hv
          (fun c hc => decide_eq_true (hq c hc)) (by decide)
      · intro j hj
        by_contra hcon
        have hsome : (matchLCL (keyLit k) (fun c => c ≠ '"') ['"']
            ((p.drop j ++ (keyLit k ++ v ++ ['"'])) ++ r)).isSome = true :=
          Option.ne_none_iff_isSome.mp hcon
        have hshape : (p.drop j ++ (keyLit k ++ v ++ ['"'])) ++ r =
            p.drop j ++ (keyLit k ++ (v ++ '"' :: r)) := by
          simp [List.append_assoc]
        rw [hshape] at hsome
        have hjne : p.drop j ≠ [] := by
          apply List.length_pos.mp
          rw [List.length_drop]
          omega
        have hres := matchKey_shift k (p.drop j) val v r hk hjne hsome
        have hmin' := hmin j hj
        rw [hm0] at hmin'
        have hshape2 : (p.drop j ++ (keyLit k ++ val ++ ['"'])) ++ r =
            p.drop j ++ (keyLit k ++ (val ++ '"' :: r)) := by
          simp [List.append_assoc]
        rw [hshape2] at hmin'
        rw [hmin'] at hres
        simp at hres
    simp only [hnew]
    rw [expandRepl_no_dollar _ _ _ _ _ hnodollar]

/-- C5 witness: the single-key idempotence applied to the `name` key, the
value `P`, and the concrete manifest text `"name": "x"`. -/
theorem C5_manifest_key_idempotent_witness :
    replaceKey ['n', 'a', 'm', 'e'] ['P']
        (replaceKey ['n', 'a', 'm', 'e'] ['P']
          ['"', 'n', 'a', 'm', 'e', '"', ':', ' ', '"', 'x', '"']) =
      replaceKey ['n', 'a', 'm', 'e'] ['P']
        ['"', 'n', 'a', 'm', 'e', '"', ':', ' ', '"', 'x', '"'] :=
  C5_manifest_key_idempotent ['n', 'a', 'm', 'e'] ['P']
    ['"', 'n', 'a', 'm', 'e', '"', ':', ' ', '"', 'x', '"']
    (by decide) (by decide) (by decide) (by decide)
